import Mathlib

/-!
Verification of the htmx header codec layer.

The development shallowly embeds the codec layer of a Rust crate that maps
between raw HTTP header values and typed domain values for the htmx protocol
headers.  Raw header values are byte strings that may or may not be valid
UTF-8; the embedding represents a raw value either as its decoded text, or as
an opaque non-UTF-8 byte list.  Fallible decoding is modelled with Option
(none is the single InvalidHeader error), and encoding returns
Option (List HeaderValue) where the list holds the values appended to the
sink and none models the documented abort on an unrenderable value.
-/

/-- Unicode code points with the White_Space property, which is the set the
source crate trims around comma separated trigger event names. -/
def rustWhitespace (c : Char) : Bool :=
  (9 ≤ c.toNat && c.toNat ≤ 13) || c.toNat = 32 || c.toNat = 0x85 || c.toNat = 0xA0 ||
    c.toNat = 0x1680 || (0x2000 ≤ c.toNat && c.toNat ≤ 0x200A) || c.toNat = 0x2028 ||
    c.toNat = 0x2029 || c.toNat = 0x202F || c.toNat = 0x205F || c.toNat = 0x3000

/-- Characters dropped from both ends, as str::trim does. -/
def trimChars (cs : List Char) : List Char :=
  ((cs.dropWhile rustWhitespace).reverse.dropWhile rustWhitespace).reverse

/-- Split on every comma, as str::split does: the empty input yields one
empty piece, and n separators yield n + 1 pieces. -/
def splitComma : List Char → List (List Char)
  | [] => [[]]
  | c :: cs =>
    if c = ',' then [] :: splitComma cs
    else
      match splitComma cs with
      | [] => [[c]]
      | h :: t => (c :: h) :: t

/-- Join with the two character separator used by the trigger list encoder. -/
def joinCommaSpace : List (List Char) → List Char
  | [] => []
  | [x] => x
  | x :: y :: xs => x ++ ',' :: ' ' :: joinCommaSpace (y :: xs)

/-- String level wrapper of splitComma plus per item trim, the exact fallback
decoding of a trigger header value. -/
def strSplitTrim (s : String) : List String :=
  (splitComma s.data).map (fun cs => String.mk (trimChars cs))

/-- String level wrapper of joinCommaSpace, the trigger list encoder. -/
def strJoin (l : List String) : String :=
  String.mk (joinCommaSpace (l.map String.data))

/-- Raw header value: either valid UTF-8 text, given decoded, or a byte
sequence that is not valid UTF-8.  The invariant that the bin bytes are not
valid UTF-8 is not enforced by the type; every operation below treats a bin
value the way the source treats a non-UTF-8 value. -/
inductive HeaderValue where
  | text (s : String)
  | bin (bytes : List Nat)
deriving DecidableEq

/-- Byte level validity check of http HeaderValue: every byte is tab, or in
the visible range 0x20 to 0xFF except DEL.  Characters above 0x7F encode to
bytes at or above 0x80, which are all accepted, so on characters the check
is: tab, or code point at least 0x20 and different from 0x7F. -/
def validHeaderChar (c : Char) : Bool :=
  c = '\t' || (32 ≤ c.toNat && c.toNat ≠ 127)

/-- Whole string validity for HeaderValue construction from a string. -/
def validHeaderString (s : String) : Bool :=
  s.data.all validHeaderChar

/-- HeaderValue construction from a string; none models the panic of the
unwrap on from_str in every encoder of the crate. -/
def HeaderValue.fromStr? (s : String) : Option HeaderValue :=
  if validHeaderString s then some (.text s) else none

/-- Visible ASCII or tab: the byte condition of the to_str conversion of
http HeaderValue.  Characters above 0x7F encode to bytes at or above 0x80,
which the conversion rejects, so on characters the condition is: tab, or
code point between 0x20 and 0x7E. -/
def visibleAsciiChar (c : Char) : Bool :=
  c = '\t' || (32 ≤ c.toNat && c.toNat ≤ 126)

/-- The to_str conversion of http HeaderValue: succeeds only when every
byte is visible ASCII or tab.  It fails on non-UTF-8 values and also on
valid UTF-8 values holding any byte outside that range. -/
def HeaderValue.toStr? : HeaderValue → Option String
  | .text s => if s.data.all visibleAsciiChar then some s else none
  | .bin _ => none

/-- Byte comparison of a raw value against an ASCII literal, as the equality
between HeaderValue and str used for the sentinel checks.  A non-UTF-8 value
can never equal an ASCII literal, whose bytes are valid UTF-8. -/
def HeaderValue.eqStr : HeaderValue → String → Bool
  | .text s, t => s = t
  | .bin _, _ => false

/-- Modelled from the spec: the external http Uri capability, out of scope
for the crate, is a type that can render to and parse from a UTF-8 string
losslessly for the values it accepts; an empty or control or space laced
value is rejected.  The model is the subtype of accepted strings, rendered
by the identity. -/
def uriOk (s : String) : Bool :=
  !s.isEmpty && s.data.all (fun c => 33 ≤ c.toNat && c.toNat ≤ 126)

/-- Modelled from the spec: a URI value is an accepted string. -/
def Uri := { s : String // uriOk s = true }

instance : DecidableEq Uri :=
  inferInstanceAs (DecidableEq { s : String // uriOk s = true })

/-- Modelled from the spec: parsing from text, total over accepted strings. -/
def Uri.parse? (s : String) : Option Uri :=
  if h : uriOk s = true then some ⟨s, h⟩ else none

/-- The eight swap strategies of the hx-swap vocabulary. -/
inductive Swap where
  | innerHtml
  | outerHtml
  | beforeBegin
  | afterBegin
  | beforeEnd
  | afterEnd
  | delete
  | none
deriving DecidableEq

/-- The From conversion of a Swap into a raw header value: the fixed token
of each variant. -/
def Swap.toHeaderValue : Swap → HeaderValue
  | .innerHtml => .text "innerHtml"
  | .outerHtml => .text "outerHtml"
  | .beforeBegin => .text "beforebegin"
  | .afterBegin => .text "afterbegin"
  | .beforeEnd => .text "beforeend"
  | .afterEnd => .text "afterend"
  | .delete => .text "delete"
  | .none => .text "none"

/-- The TryFrom conversion from raw bytes into a Swap: exact byte match
against the eight tokens, everything else is an error.  The eight tokens are
ASCII, so a non-UTF-8 byte string never matches. -/
def Swap.tryFromBytes : HeaderValue → Option Swap
  | .text s =>
    if s = "innerHtml" then some .innerHtml
    else if s = "outerHtml" then some .outerHtml
    else if s = "beforebegin" then some .beforeBegin
    else if s = "afterbegin" then some .afterBegin
    else if s = "beforeend" then some .beforeEnd
    else if s = "afterend" then some .afterEnd
    else if s = "delete" then some .delete
    else if s = "none" then some .none
    else Option.none
  | .bin _ => Option.none

/-- Decoder generated by the true_header macro, shared by HxBoosted,
HxHistoryRestoreRequest, HxRequest and HxRefresh: the iterator must yield
exactly one value and it must equal the literal true. -/
def trueHeaderDecode (values : List HeaderValue) : Option Unit :=
  match values with
  | [v] => if v.eqStr "true" then some () else Option.none
  | _ => Option.none

/-- Encoder generated by the true_header macro: one static literal value. -/
def trueHeaderEncode : List HeaderValue :=
  [.text "true"]

/-- Decoder generated by the string_header macro, shared by HxPrompt,
HxTarget, HxTriggerName, the request side HxTrigger, HxRetarget and
HxReselect: exactly one value, converted to text. -/
def stringHeaderDecode (values : List HeaderValue) : Option String :=
  match values with
  | [v] => v.toStr?
  | _ => Option.none

/-- Encoder generated by the string_header macro: the stored string as one
value, aborting on a string that is not a valid header value. -/
def stringHeaderEncode (s : String) : Option (List HeaderValue) :=
  (HeaderValue.fromStr? s).map (fun v => [v])

/-- Decoder generated by the convert_header macro at type Uri, shared by
HxCurrentUrl and HxRedirect: exactly one value, converted through the
TryFrom instance of Uri on bytes; non-UTF-8 bytes are never a URI. -/
def convertHeaderDecode (values : List HeaderValue) : Option Uri :=
  match values with
  | [v] =>
    match v with
    | .text s => Uri.parse? s
    | .bin _ => Option.none
  | _ => Option.none

/-- Encoder generated by the convert_header macro at type Uri: the rendered
URI as one value. -/
def convertHeaderEncode (u : Uri) : Option (List HeaderValue) :=
  (HeaderValue.fromStr? u.val).map (fun v => [v])

/-- Marker type selecting the hx-push-url wire name. -/
structure HxPushUrl where

/-- Marker type selecting the hx-replace-url wire name. -/
structure HxReplaceUrl where

/-- The history modification union shared by HxPushUrl and HxReplaceUrl.
The phantom case only carries the marker type parameter and is never meant
to be constructed. -/
inductive HxModifyHistory (M : Type) where
  | uri (u : Uri)
  | noChange
  | phantom
deriving DecidableEq

/-- Decoder of HxModifyHistory: exactly one value; the literal false means
no change, otherwise the value must convert to a URI. -/
def HxModifyHistory.decode (M : Type) (values : List HeaderValue) :
    Option (HxModifyHistory M) :=
  match values with
  | [v] =>
    if v.eqStr "false" then some .noChange
    else
      match v with
      | .text s => (Uri.parse? s).map .uri
      | .bin _ => Option.none
  | _ => Option.none

/-- Encoder of HxModifyHistory: the rendered URI, or the literal false for
no change; the phantom case appends nothing and returns. -/
def HxModifyHistory.encode {M : Type} : HxModifyHistory M → Option (List HeaderValue)
  | .uri u => (HeaderValue.fromStr? u.val).map (fun v => [v])
  | .noChange => some [.text "false"]
  | .phantom => some []

/-- The HxReswap header wraps one Swap value. -/
structure HxReswap where
  swap : Swap
deriving DecidableEq

/-- Decoder of HxReswap: exactly one value, matched against the token set. -/
def HxReswap.decode (values : List HeaderValue) : Option HxReswap :=
  match values with
  | [v] => (Swap.tryFromBytes v).map HxReswap.mk
  | _ => Option.none

/-- Encoder of HxReswap: the token of the stored Swap as one value; the From
conversion to a header value cannot fail. -/
def HxReswap.encode (h : HxReswap) : List HeaderValue :=
  [h.swap.toHeaderValue]

/-- JSON values as serde_json sees them; numbers are kept as their raw
lexeme, which the claims under verification never inspect. -/
inductive JsonVal where
  | jnull
  | jbool (b : Bool)
  | jnum (lexeme : String)
  | jstr (s : String)
  | jarr (items : List JsonVal)
  | jobj (fields : List (String × JsonVal))

/-- Opening brace character. -/
def lbrace : Char := Char.ofNat 123

/-- Closing brace character. -/
def rbrace : Char := Char.ofNat 125

/-- JSON insignificant whitespace: space, tab, line feed, carriage return. -/
def jsonWs (c : Char) : Bool :=
  c = ' ' || c = '\t' || c = '\n' || c = '\r'

/-- Drop leading JSON whitespace. -/
def skipWs (cs : List Char) : List Char :=
  cs.dropWhile jsonWs

/-- Lower case hex digit of a value below 16. -/
def hexDigit (n : Nat) : Char :=
  if n < 10 then Char.ofNat (48 + n) else Char.ofNat (87 + n)

/-- Value of one hex digit, upper or lower case. -/
def hexVal? (c : Char) : Option Nat :=
  if '0' ≤ c ∧ c ≤ '9' then some (c.toNat - 48)
  else if 'a' ≤ c ∧ c ≤ 'f' then some (c.toNat - 87)
  else if 'A' ≤ c ∧ c ≤ 'F' then some (c.toNat - 55)
  else none

/-- JSON escape of one character, as the serde_json serializer emits it:
quote and backslash get a two character escape, the five named control
characters get theirs, the remaining control characters become unicode
escapes, and everything else is emitted raw. -/
def escChar (c : Char) : List Char :=
  if c = '"' then ['\\', '"']
  else if c = '\\' then ['\\', '\\']
  else if c.toNat = 8 then ['\\', 'b']
  else if c.toNat = 9 then ['\\', 't']
  else if c.toNat = 10 then ['\\', 'n']
  else if c.toNat = 12 then ['\\', 'f']
  else if c.toNat = 13 then ['\\', 'r']
  else if c.toNat < 32 then ['\\', 'u', '0', '0', hexDigit (c.toNat / 16), hexDigit (c.toNat % 16)]
  else [c]

/-- JSON escape of a character sequence. -/
def escString (cs : List Char) : List Char :=
  cs.foldr (fun c acc => escChar c ++ acc) []

/-- Rendered JSON string literal with its quotes. -/
def renderStr (s : String) : List Char :=
  '"' :: (escString s.data ++ ['"'])

mutual

/-- Compact JSON rendering, as serde_json to_string produces it: no spaces,
comma item separator, colon key separator. -/
def renderJson : JsonVal → List Char
  | .jnull => ['n', 'u', 'l', 'l']
  | .jbool true => ['t', 'r', 'u', 'e']
  | .jbool false => ['f', 'a', 'l', 's', 'e']
  | .jnum lexeme => lexeme.data
  | .jstr s => renderStr s
  | .jarr items => '[' :: (renderArr items ++ [']'])
  | .jobj fields => lbrace :: (renderObj fields ++ [rbrace])

/-- Comma separated rendering of array items. -/
def renderArr : List JsonVal → List Char
  | [] => []
  | [x] => renderJson x
  | x :: y :: xs => renderJson x ++ ',' :: renderArr (y :: xs)

/-- Comma separated rendering of object entries. -/
def renderObj : List (String × JsonVal) → List Char
  | [] => []
  | [(k, v)] => renderStr k ++ ':' :: renderJson v
  | (k, v) :: f :: fs => renderStr k ++ ':' :: renderJson v ++ ',' :: renderObj (f :: fs)

end

/-- Push a decoded character onto a string parse result. -/
def pushChar (c : Char) (r : Option (List Char × List Char)) :
    Option (List Char × List Char) :=
  r.map (fun p => (c :: p.1, p.2))

/-- Value of four hex digits. -/
def hex4? (a b c d : Char) : Option Nat := do
  let x1 ← hexVal? a
  let x2 ← hexVal? b
  let x3 ← hexVal? c
  let x4 ← hexVal? d
  some (x1 * 4096 + x2 * 256 + x3 * 16 + x4)

/-- One JSON string escape, entered after the backslash: the decoded
character and the remaining input.  Escapes follow the JSON grammar,
unicode escapes combine surrogate pairs and reject lone surrogates. -/
def readEscape : List Char → Option (Char × List Char)
  | '"' :: cs => some ('"', cs)
  | '\\' :: cs => some ('\\', cs)
  | '/' :: cs => some ('/', cs)
  | 'b' :: cs => some (Char.ofNat 8, cs)
  | 'f' :: cs => some (Char.ofNat 12, cs)
  | 'n' :: cs => some ('\n', cs)
  | 'r' :: cs => some (Char.ofNat 13, cs)
  | 't' :: cs => some ('\t', cs)
  | 'u' :: a :: b :: c :: d :: cs =>
    (match hex4? a b c d with
    | none => none
    | some hi =>
      if 0xD800 ≤ hi ∧ hi < 0xDC00 then
        match cs with
        | '\\' :: 'u' :: e :: f :: g :: h :: cs2 =>
          (match hex4? e f g h with
          | none => none
          | some lo =>
            if 0xDC00 ≤ lo ∧ lo < 0xE000 then
              some (Char.ofNat (0x10000 + (hi - 0xD800) * 0x400 + (lo - 0xDC00)), cs2)
            else none)
        | _ => none
      else if 0xDC00 ≤ hi ∧ hi < 0xE000 then none
      else some (Char.ofNat hi, cs))
  | _ => none

/-- Fuel driven JSON string body reader loop, entered after the opening
quote: returns the decoded characters and the input after the closing
quote.  Every step consumes at least one input character, so any fuel
beyond the input length is enough. -/
def psrSteps : Nat → List Char → Option (List Char × List Char)
  | 0, _ => none
  | fuel + 1, l =>
    match l with
    | [] => none
    | c :: cs =>
      if c = '"' then some ([], cs)
      else if c = '\\' then
        match readEscape cs with
        | some (d, cs1) => pushChar d (psrSteps fuel cs1)
        | none => none
      else if c.toNat < 32 then none
      else pushChar c (psrSteps fuel cs)

/-- JSON string body reader at adequate fuel. -/
def parseStringRest (l : List Char) : Option (List Char × List Char) :=
  psrSteps (l.length + 1) l

/-- ASCII digit test. -/
def isDigit (c : Char) : Bool := '0' ≤ c && c ≤ '9'

/-- Integer part of a JSON number: a single zero, or a nonzero digit
followed by digits. -/
def parseIntPart : List Char → Option (List Char × List Char)
  | [] => none
  | c :: cs =>
    if c = '0' then some (['0'], cs)
    else if isDigit c then
      let p := cs.span isDigit
      some (c :: p.1, p.2)
    else none

/-- Optional fraction part of a JSON number. -/
def parseFracPart (cs : List Char) : Option (List Char × List Char) :=
  match cs with
  | '.' :: cs1 =>
    let p := cs1.span isDigit
    if p.1.isEmpty then none else some ('.' :: p.1, p.2)
  | _ => some ([], cs)

/-- Optional exponent part of a JSON number. -/
def parseExpPart (cs : List Char) : Option (List Char × List Char) :=
  match cs with
  | c :: cs1 =>
    if c = 'e' ∨ c = 'E' then
      let q := match cs1 with
        | s :: cs2 => if s = '+' ∨ s = '-' then ([s], cs2) else ([], cs1)
        | [] => ([], cs1)
      let p := q.2.span isDigit
      if p.1.isEmpty then none else some (c :: q.1 ++ p.1, p.2)
    else some ([], cs)
  | [] => some ([], [])

/-- JSON number lexeme, with an optional leading minus. -/
def parseNumber (cs : List Char) : Option (List Char × List Char) := do
  let neg := match cs with
    | '-' :: t => (['-'], t)
    | _ => (([] : List Char), cs)
  let i ← parseIntPart neg.2
  let f ← parseFracPart i.2
  let e ← parseExpPart f.2
  some (neg.1 ++ i.1 ++ f.1 ++ e.1, e.2)

/-- Result of a JSON value parse step. -/
abbrev ValRes := Option (JsonVal × List Char)

/-- Result of an object entry sequence parse step. -/
abbrev ObjRes := Option (List (String × JsonVal) × List Char)

/-- Result of an array item sequence parse step. -/
abbrev ArrRes := Option (List JsonVal × List Char)

/-- One JSON value, taking the lower fuel object and array readers as
arguments: leading whitespace, then an object, array, string, literal or
number by first character. -/
def parseValBody (po : List Char → ObjRes) (pa : List Char → ArrRes)
    (cs : List Char) : ValRes :=
  match skipWs cs with
  | [] => none
  | c :: cs1 =>
    if c = lbrace then
      match skipWs cs1 with
      | d :: cs2 =>
        if d = rbrace then some (.jobj [], cs2)
        else (po (d :: cs2)).map (fun p => (.jobj p.1, p.2))
      | [] => none
    else if c = '[' then
      match skipWs cs1 with
      | d :: cs2 =>
        if d = ']' then some (.jarr [], cs2)
        else (pa (d :: cs2)).map (fun p => (.jarr p.1, p.2))
      | [] => none
    else if c = '"' then
      (parseStringRest cs1).map (fun p => (.jstr (String.mk p.1), p.2))
    else
      match c :: cs1 with
      | 't' :: 'r' :: 'u' :: 'e' :: cs2 => some (.jbool true, cs2)
      | 'f' :: 'a' :: 'l' :: 's' :: 'e' :: cs2 => some (.jbool false, cs2)
      | 'n' :: 'u' :: 'l' :: 'l' :: cs2 => some (.jnull, cs2)
      | cs2 => (parseNumber cs2).map (fun p => (.jnum (String.mk p.1), p.2))

/-- Nonempty entry sequence of a JSON object, up to and including the
closing brace. -/
def parseObjBody (pv : List Char → ValRes) (po : List Char → ObjRes)
    (cs : List Char) : ObjRes :=
  match skipWs cs with
  | '"' :: cs1 =>
    match parseStringRest cs1 with
    | none => none
    | some (k, cs2) =>
      match skipWs cs2 with
      | ':' :: cs3 =>
        match pv cs3 with
        | none => none
        | some (v, cs4) =>
          match skipWs cs4 with
          | ',' :: cs5 => (po cs5).map (fun p => ((String.mk k, v) :: p.1, p.2))
          | d :: cs5 => if d = rbrace then some ([(String.mk k, v)], cs5) else none
          | [] => none
      | _ => none
  | _ => none

/-- Nonempty item sequence of a JSON array, up to and including the closing
bracket. -/
def parseArrBody (pv : List Char → ValRes) (pa : List Char → ArrRes)
    (cs : List Char) : ArrRes :=
  match pv cs with
  | none => none
  | some (v, cs1) =>
    match skipWs cs1 with
    | ',' :: cs2 => (pa cs2).map (fun p => (v :: p.1, p.2))
    | ']' :: cs2 => some ([v], cs2)
    | _ => none

/-- Fuel indexed triple of the three mutually recursive readers; the fuel
bounds the nesting and entry count and is chosen above any value reachable
from the input length. -/
def jsonSteps : Nat →
    (List Char → ValRes) × (List Char → ObjRes) × (List Char → ArrRes)
  | 0 => (fun _ => none, fun _ => none, fun _ => none)
  | fuel + 1 =>
    let ps := jsonSteps fuel
    (parseValBody ps.2.1 ps.2.2, parseObjBody ps.1 ps.2.1, parseArrBody ps.1 ps.2.2)

/-- One JSON value at the given fuel. -/
def parseVal (fuel : Nat) : List Char → ValRes := (jsonSteps fuel).1

/-- Object entries at the given fuel. -/
def parseObjItems (fuel : Nat) : List Char → ObjRes := (jsonSteps fuel).2.1

/-- Array items at the given fuel. -/
def parseArrItems (fuel : Nat) : List Char → ArrRes := (jsonSteps fuel).2.2

/-- Complete JSON document parse of a string: one value with only
whitespace after it, with fuel beyond what the input length can consume. -/
def parseJsonTop (s : String) : Option JsonVal :=
  match parseVal (s.data.length + 2) s.data with
  | some (v, rest) => if (skipWs rest).isEmpty then some v else none
  | none => none

/-- Deserialization of a raw value into a string keyed JSON map, as
serde_json from_slice at a map target: requires valid UTF-8 and a complete
JSON object document.  The model keeps the entry sequence of the parse
where the Rust map has arbitrary iteration order. -/
def jsonObjFields? (v : HeaderValue) : Option (List (String × JsonVal)) :=
  match v with
  | .text s =>
    match parseJsonTop s with
    | some (.jobj fields) => some fields
    | _ => none
  | .bin _ => none

/-- Ajax context record embedded in the hx-location value.  Every field is
independently optional; the two free form maps are modelled as association
lists standing for Rust hash maps. -/
structure AjaxContext where
  source : Option String := Option.none
  event : Option String := Option.none
  handler : Option String := Option.none
  target : Option String := Option.none
  swap : Option String := Option.none
  values : Option (List (String × String)) := Option.none
  headers : Option (List (String × String)) := Option.none
  select : Option String := Option.none
deriving DecidableEq

/-- One optional string field as its serialized JSON entries: present
fields give one entry, absent fields give none, as the
skip_serializing_if annotation prescribes. -/
def optStrField (name : String) (o : Option String) : List (String × JsonVal) :=
  match o with
  | some s => [(name, .jstr s)]
  | Option.none => []

/-- One optional string map field as its serialized JSON entries. -/
def optMapField (name : String) (o : Option (List (String × String))) :
    List (String × JsonVal) :=
  match o with
  | some m => [(name, .jobj (m.map (fun p => (p.1, .jstr p.2))))]
  | Option.none => []

/-- Serialized entries of an AjaxContext, in field declaration order. -/
def ajaxFields (ctx : AjaxContext) : List (String × JsonVal) :=
  optStrField "source" ctx.source ++ optStrField "event" ctx.event ++
    optStrField "handler" ctx.handler ++ optStrField "target" ctx.target ++
    optStrField "swap" ctx.swap ++ optMapField "values" ctx.values ++
    optMapField "headers" ctx.headers ++ optStrField "select" ctx.select

/-- The hx-location domain value: a required path plus an optional context
flattened into the same JSON object. -/
structure HxLocation where
  path : Uri
  context : Option AjaxContext

/-- Values of one key in a parsed object entry sequence. -/
def lookupField (fields : List (String × JsonVal)) (k : String) : List JsonVal :=
  (fields.filter (fun p => p.1 == k)).map (fun p => p.2)

/-- Deserialization of one optional string field from the flattened entry
sequence: absent is fine, one string entry is its value, a non string type
or a duplicated field is an error. -/
def getStrField (fields : List (String × JsonVal)) (k : String) :
    Option (Option String) :=
  match lookupField fields k with
  | [] => some Option.none
  | [.jstr s] => some (some s)
  | _ => Option.none

/-- Entries of a JSON object deserialized at a string to string map target:
every value must be a string. -/
def strEntries? : List (String × JsonVal) → Option (List (String × String))
  | [] => some []
  | (k, .jstr v) :: rest => (strEntries? rest).map (fun m => (k, v) :: m)
  | _ => Option.none

/-- Deserialization of one optional string map field. -/
def getMapField (fields : List (String × JsonVal)) (k : String) :
    Option (Option (List (String × String))) :=
  match lookupField fields k with
  | [] => some Option.none
  | [.jobj entries] => (strEntries? entries).map some
  | _ => Option.none

/-- AjaxContext deserialization from the entries left after the path field,
mirroring the derived deserializer: each known field is read at its type,
unknown entries are ignored. -/
def ajaxFromFields (fields : List (String × JsonVal)) : Option AjaxContext := do
  let source ← getStrField fields "source"
  let event ← getStrField fields "event"
  let handler ← getStrField fields "handler"
  let target ← getStrField fields "target"
  let swap ← getStrField fields "swap"
  let values ← getMapField fields "values"
  let headers ← getMapField fields "headers"
  let select ← getStrField fields "select"
  some ⟨source, event, handler, target, swap, values, headers, select⟩

/-- Decoder of HxLocation: exactly one value, deserialized as a whole JSON
object holding the path as a string under its fixed field name and the
flattened context fields beside it.  There is no fallback accepting a bare
URI value.  A flattened optional record deserializes by reading the record
from the leftover entries, so a successful decode always carries a context
value. -/
def HxLocation.decode (values : List HeaderValue) : Option HxLocation :=
  match values with
  | [v] =>
    match jsonObjFields? v with
    | some fields => do
      let pathStr ←
        match lookupField fields "path" with
        | [.jstr s] => some s
        | _ => Option.none
      let path ← Uri.parse? pathStr
      let ctx ← ajaxFromFields (fields.filter (fun p => p.1 ≠ "path"))
      some ⟨path, some ctx⟩
    | Option.none => Option.none
  | _ => Option.none

/-- Encoder of HxLocation: with no context the bare rendered path is the
single value; with a context the single value is the JSON object of the
path entry followed by the present context fields. -/
def HxLocation.encode (l : HxLocation) : Option (List HeaderValue) :=
  match l.context with
  | Option.none => (HeaderValue.fromStr? l.path.val).map (fun v => [v])
  | some ctx =>
    (HeaderValue.fromStr?
        (String.mk (renderJson (.jobj (("path", .jstr l.path.val) :: ajaxFields ctx))))).map
      (fun v => [v])

/-- Marker type selecting the immediate hx-trigger wire name, the unit
parameter default of the generic header. -/
structure TriggerNow where

/-- Marker type selecting the hx-trigger-after-settle wire name. -/
structure AfterSettle where

/-- Marker type selecting the hx-trigger-after-swap wire name. -/
structure AfterSwap where

/-- The response side trigger union shared by the three trigger headers: a
plain event name list, or a map from event names to arbitrary JSON details.
The phantom case only carries the marker type parameter. -/
inductive HxTrigger (After : Type) where
  | list (items : List String)
  | withDetails (details : List (String × JsonVal))
  | phantom

/-- Decoder of HxTrigger: exactly one value; a value deserializable as a
JSON object yields the detail map, any other UTF-8 value falls back to the
comma separated list of trimmed event names, and a non-UTF-8 value is an
error. -/
def HxTrigger.decode (After : Type) (values : List HeaderValue) :
    Option (HxTrigger After) :=
  match values with
  | [v] =>
    match jsonObjFields? v with
    | some fields => some (.withDetails fields)
    | Option.none => v.toStr?.map (fun s => .list (strSplitTrim s))
  | _ => Option.none

/-- Encoder of HxTrigger: the list variant joins its items with a comma and
space into one value, the detail variant serializes its map to one JSON
value, and the phantom case appends nothing and returns. -/
def HxTrigger.encode {After : Type} : HxTrigger After → Option (List HeaderValue)
  | .list items => (HeaderValue.fromStr? (strJoin items)).map (fun v => [v])
  | .withDetails details =>
    (HeaderValue.fromStr? (String.mk (renderJson (.jobj details)))).map (fun v => [v])
  | .phantom => some []

def plainChar (c : Char) : Bool :=
  c ≠ '"' && c ≠ '\\' && 32 ≤ c.toNat && c.toNat ≠ 127

def plainStr (s : String) : Bool := s.data.all plainChar

def RendersBack (v : JsonVal) : Prop :=
  ∀ fuel rest, (renderJson v).length + 1 ≤ fuel →
    parseVal fuel (renderJson v ++ rest) = some (v, rest)

def ValidRender (v : JsonVal) : Prop :=
  (renderJson v).all validHeaderChar = true

def plainEntries (m : List (String × String)) : Bool :=
  m.all (fun p => plainStr p.1 && plainStr p.2)

def plainOptStr : Option String → Bool
  | some s => plainStr s
  | Option.none => true

def plainOptMap : Option (List (String × String)) → Bool
  | some m => plainEntries m
  | Option.none => true

def plainCtx (ctx : AjaxContext) : Bool :=
  plainOptStr ctx.source && plainOptStr ctx.event && plainOptStr ctx.handler &&
    plainOptStr ctx.target && plainOptStr ctx.swap && plainOptMap ctx.values &&
    plainOptMap ctx.headers && plainOptStr ctx.select

def plainJsonStr : JsonVal → Bool
  | .jstr t => plainStr t
  | _ => false

theorem skipWs_cons (c : Char) (cs : List Char) (h : jsonWs c = false) :
    skipWs (c :: cs) = c :: cs := by
  simp [skipWs, List.dropWhile, h]

theorem parseVal_succ (fuel : Nat) (cs : List Char) :
    parseVal (fuel + 1) cs = parseValBody (parseObjItems fuel) (parseArrItems fuel) cs := rfl

theorem parseObjItems_succ (fuel : Nat) (cs : List Char) :
    parseObjItems (fuel + 1) cs = parseObjBody (parseVal fuel) (parseObjItems fuel) cs := rfl

theorem plainChar_elim {c : Char} (h : plainChar c = true) :
    ¬c = '"' ∧ ¬c = '\\' ∧ 32 ≤ c.toNat ∧ ¬c.toNat = 127 := by
  simp only [plainChar, Bool.and_eq_true, decide_eq_true_eq] at h
  exact ⟨h.1.1.1, h.1.1.2, h.1.2, h.2⟩

theorem psrSteps_plain : ∀ (cs : List Char) (fuel : Nat) (rest : List Char),
    cs.length + 1 ≤ fuel → cs.all plainChar = true →
    psrSteps fuel (cs ++ '"' :: rest) = some (cs, rest) := by
  intro cs
  induction cs with
  | nil =>
    intro fuel rest hf h
    cases fuel with
    | zero => omega
    | succ f => simp [psrSteps]
  | cons c cs ih =>
    intro fuel rest hf h
    simp only [List.all_cons, Bool.and_eq_true] at h
    obtain ⟨hc, hcs⟩ := h
    obtain ⟨h1, h2, h3, h4⟩ := plainChar_elim hc
    cases fuel with
    | zero => simp at hf
    | succ f =>
      rw [List.cons_append]
      simp only [psrSteps]
      rw [if_neg h1, if_neg h2, if_neg (by omega),
        ih f rest (by simp only [List.length_cons] at hf; omega) hcs]
      rfl

theorem psr_plain (cs rest : List Char) (h : cs.all plainChar = true) :
    parseStringRest (cs ++ '"' :: rest) = some (cs, rest) := by
  rw [parseStringRest]
  exact psrSteps_plain cs _ rest (by simp only [List.length_append, List.length_cons]; omega) h

theorem escString_plain : ∀ (cs : List Char), cs.all plainChar = true →
    escString cs = cs := by
  intro cs
  induction cs with
  | nil => intro h; rfl
  | cons c cs ih =>
    intro h
    simp only [List.all_cons, Bool.and_eq_true] at h
    obtain ⟨hc, hcs⟩ := h
    obtain ⟨h1, h2, h3, h4⟩ := plainChar_elim hc
    simp only [escString, List.foldr_cons] at ih ⊢
    rw [ih hcs]
    simp only [escChar]
    rw [if_neg h1, if_neg h2, if_neg (by omega), if_neg (by omega), if_neg (by omega),
      if_neg (by omega), if_neg (by omega), if_neg (by omega)]
    rfl

theorem parseValBody_quote (po : List Char → ObjRes) (pa : List Char → ArrRes)
    (cs1 : List Char) :
    parseValBody po pa ('"' :: cs1) =
      (parseStringRest cs1).map (fun p => (.jstr (String.mk p.1), p.2)) := rfl

theorem parseValBody_lbrace (po : List Char → ObjRes) (pa : List Char → ArrRes)
    (cs1 : List Char) :
    parseValBody po pa (lbrace :: cs1) =
      (match skipWs cs1 with
      | d :: cs2 =>
        if d = rbrace then some (.jobj [], cs2)
        else (po (d :: cs2)).map (fun p => (.jobj p.1, p.2))
      | [] => none) := rfl

theorem rb_jstr (s : String) (hs : plainStr s = true) : RendersBack (.jstr s) := by
  intro fuel rest hfuel
  cases fuel with
  | zero => omega
  | succ f =>
    rw [parseVal_succ]
    simp only [renderJson, renderStr, escString_plain s.data hs]
    rw [show ('"' :: (s.data ++ ['"'])) ++ rest = '"' :: (s.data ++ '"' :: rest) by simp]
    rw [parseValBody_quote, psr_plain s.data rest hs]
    rfl

theorem parseObjBody_quote (pv : List Char → ValRes) (po : List Char → ObjRes)
    (cs1 : List Char) :
    parseObjBody pv po ('"' :: cs1) =
      (match parseStringRest cs1 with
      | none => none
      | some (k, cs2) =>
        match skipWs cs2 with
        | ':' :: cs3 =>
          (match pv cs3 with
          | none => none
          | some (v, cs4) =>
            match skipWs cs4 with
            | ',' :: cs5 => (po cs5).map (fun p : List (String × JsonVal) × List Char => ((String.mk k, v) :: p.1, p.2))
            | d :: cs5 => if d = rbrace then some ([(String.mk k, v)], cs5) else none
            | [] => none)
        | _ => none) := rfl

example (pv : List Char → ValRes) (po : List Char → ObjRes) (cs1 cs3 : List Char)
    (k : List Char) (v : JsonVal) (tail : List Char)
    (hstr : parseStringRest cs1 = some (k, ':' :: cs3))
    (hval : pv cs3 = some (v, rbrace :: tail)) :
    parseObjBody pv po ('"' :: cs1) = some ([(String.mk k, v)], tail) := by
  rw [parseObjBody_quote, hstr]
  show (match skipWs (':' :: cs3) with
      | ':' :: cs3 =>
        (match pv cs3 with
        | none => none
        | some (v, cs4) =>
          match skipWs cs4 with
          | ',' :: cs5 => (po cs5).map (fun p : List (String × JsonVal) × List Char => ((String.mk k, v) :: p.1, p.2))
          | d :: cs5 => if d = rbrace then some ([(String.mk k, v)], cs5) else none
          | [] => none)
      | _ => none) = _
  rw [skipWs_cons ':' _ (by decide)]
  show (match pv cs3 with
      | none => none
      | some (v, cs4) =>
        match skipWs cs4 with
        | ',' :: cs5 => (po cs5).map (fun p : List (String × JsonVal) × List Char => ((String.mk k, v) :: p.1, p.2))
        | d :: cs5 => if d = rbrace then some ([(String.mk k, v)], cs5) else none
        | [] => none) = _
  rw [hval]
  show (match skipWs (rbrace :: tail) with
      | ',' :: cs5 => (po cs5).map (fun p : List (String × JsonVal) × List Char => ((String.mk k, v) :: p.1, p.2))
      | d :: cs5 => if d = rbrace then some ([(String.mk k, v)], cs5) else none
      | [] => none) = _
  rw [skipWs_cons rbrace _ (by decide)]
  rfl

theorem parseObjItems_render :
    ∀ (fields : List (String × JsonVal)) (fuel : Nat) (rest : List Char),
      fields ≠ [] →
      (∀ p ∈ fields, plainStr p.1 = true ∧ RendersBack p.2) →
      (renderObj fields).length + 2 ≤ fuel →
      parseObjItems fuel (renderObj fields ++ rbrace :: rest) = some (fields, rest) := by
  intro fields
  induction fields with
  | nil => intro fuel rest hne hall hfuel; exact absurd rfl hne
  | cons p tl ih =>
    intro fuel rest hne hall hfuel
    obtain ⟨k, v⟩ := p
    have hk : plainStr k = true := (hall (k, v) (by simp)).1
    have hv : RendersBack v := (hall (k, v) (by simp)).2
    cases fuel with
    | zero => simp at hfuel
    | succ f =>
      rw [parseObjItems_succ]
      cases tl with
      | nil =>
        have hshape : renderObj [(k, v)] ++ rbrace :: rest =
            '"' :: (k.data ++ '"' :: (':' :: (renderJson v ++ rbrace :: rest))) := by
          simp [renderObj, renderStr, escString_plain k.data hk, List.append_assoc]
        rw [hshape, parseObjBody_quote,
          psr_plain k.data (':' :: (renderJson v ++ rbrace :: rest)) hk]
        show (match skipWs (':' :: (renderJson v ++ rbrace :: rest)) with
            | ':' :: cs3 =>
              (match parseVal f cs3 with
              | none => none
              | some (v, cs4) =>
                match skipWs cs4 with
                | ',' :: cs5 => (parseObjItems f cs5).map
                    (fun p : List (String × JsonVal) × List Char =>
                      ((String.mk k.data, v) :: p.1, p.2))
                | d :: cs5 => if d = rbrace then some ([(String.mk k.data, v)], cs5) else none
                | [] => none)
            | _ => none) = _
        rw [skipWs_cons ':' _ (by decide)]
        have hvrun : parseVal f (renderJson v ++ rbrace :: rest) =
            some (v, rbrace :: rest) := by
          apply hv
          have : (renderObj [(k, v)]).length =
              (renderStr k).length + 1 + (renderJson v).length := by
            simp [renderObj]
            omega
          omega
        show (match parseVal f (renderJson v ++ rbrace :: rest) with
            | none => none
            | some (v, cs4) =>
              match skipWs cs4 with
              | ',' :: cs5 => (parseObjItems f cs5).map
                  (fun p : List (String × JsonVal) × List Char =>
                    ((String.mk k.data, v) :: p.1, p.2))
              | d :: cs5 => if d = rbrace then some ([(String.mk k.data, v)], cs5) else none
              | [] => none) = _
        rw [hvrun]
        show (match skipWs (rbrace :: rest) with
            | ',' :: cs5 => (parseObjItems f cs5).map
                (fun p : List (String × JsonVal) × List Char =>
                  ((String.mk k.data, v) :: p.1, p.2))
            | d :: cs5 => if d = rbrace then some ([(String.mk k.data, v)], cs5) else none
            | [] => none) = _
        rw [skipWs_cons rbrace _ (by decide)]
        rfl
      | cons q tl2 =>
        have hshape : renderObj ((k, v) :: q :: tl2) ++ rbrace :: rest =
            '"' :: (k.data ++ '"' ::
              (':' :: (renderJson v ++ ',' :: (renderObj (q :: tl2) ++ rbrace :: rest)))) := by
          simp [renderObj, renderStr, escString_plain k.data hk, List.append_assoc]
        rw [hshape, parseObjBody_quote,
          psr_plain k.data _ hk]
        show (match skipWs (':' :: (renderJson v ++ ',' ::
              (renderObj (q :: tl2) ++ rbrace :: rest))) with
            | ':' :: cs3 =>
              (match parseVal f cs3 with
              | none => none
              | some (v, cs4) =>
                match skipWs cs4 with
                | ',' :: cs5 => (parseObjItems f cs5).map
                    (fun p : List (String × JsonVal) × List Char =>
                      ((String.mk k.data, v) :: p.1, p.2))
                | d :: cs5 => if d = rbrace then some ([(String.mk k.data, v)], cs5) else none
                | [] => none)
            | _ => none) = _
        rw [skipWs_cons ':' _ (by decide)]
        have hlen : (renderObj ((k, v) :: q :: tl2)).length =
            (renderStr k).length + 1 + (renderJson v).length + 1 +
              (renderObj (q :: tl2)).length := by
          simp [renderObj]
          omega
        have hvrun : parseVal f (renderJson v ++ ',' ::
            (renderObj (q :: tl2) ++ rbrace :: rest)) =
            some (v, ',' :: (renderObj (q :: tl2) ++ rbrace :: rest)) := by
          apply hv
          omega
        show (match parseVal f (renderJson v ++ ',' ::
              (renderObj (q :: tl2) ++ rbrace :: rest)) with
            | none => none
            | some (v, cs4) =>
              match skipWs cs4 with
              | ',' :: cs5 => (parseObjItems f cs5).map
                  (fun p : List (String × JsonVal) × List Char =>
                    ((String.mk k.data, v) :: p.1, p.2))
              | d :: cs5 => if d = rbrace then some ([(String.mk k.data, v)], cs5) else none
              | [] => none) = _
        rw [hvrun]
        show (match skipWs (',' :: (renderObj (q :: tl2) ++ rbrace :: rest)) with
            | ',' :: cs5 => (parseObjItems f cs5).map
                (fun p : List (String × JsonVal) × List Char =>
                  ((String.mk k.data, v) :: p.1, p.2))
            | d :: cs5 => if d = rbrace then some ([(String.mk k.data, v)], cs5) else none
            | [] => none) = _
        rw [skipWs_cons ',' _ (by decide)]
        show (parseObjItems f (renderObj (q :: tl2) ++ rbrace :: rest)).map
            (fun p : List (String × JsonVal) × List Char =>
              ((String.mk k.data, v) :: p.1, p.2)) = _
        rw [ih f rest (by simp) (fun p hp => hall p (by simp [hp])) (by omega)]
        rfl

theorem rb_obj (fields : List (String × JsonVal))
    (hall : ∀ p ∈ fields, plainStr p.1 = true ∧ RendersBack p.2) :
    RendersBack (.jobj fields) := by
  intro fuel rest hfuel
  cases fuel with
  | zero => omega
  | succ f =>
    rw [parseVal_succ]
    cases fields with
    | nil =>
      rw [show renderJson (.jobj []) ++ rest = lbrace :: (rbrace :: rest) by
        simp [renderJson, renderObj]]
      rw [parseValBody_lbrace]
      rw [skipWs_cons rbrace _ (by decide)]
      rfl
    | cons p tl =>
      have hne : renderObj (p :: tl) ≠ [] := by
        obtain ⟨k, v⟩ := p
        cases tl <;> simp [renderObj, renderStr]
      have hshape : renderJson (.jobj (p :: tl)) ++ rest =
          lbrace :: (renderObj (p :: tl) ++ rbrace :: rest) := by
        simp [renderJson, List.append_assoc]
      rw [hshape, parseValBody_lbrace]
      have hhead : ∃ d cs2, renderObj (p :: tl) ++ rbrace :: rest = d :: cs2 ∧
          jsonWs d = false ∧ d ≠ rbrace := by
        obtain ⟨k, v⟩ := p
        have hk : plainStr k = true := (hall (k, v) (by simp)).1
        cases tl <;>
          simp [renderObj, renderStr, List.cons_append] <;>
          exact ⟨by decide, by decide⟩
      obtain ⟨d, cs2, hdc, hdw, hdr⟩ := hhead
      rw [hdc, skipWs_cons d cs2 hdw]
      show (if d = rbrace then some (JsonVal.jobj [], cs2)
          else (parseObjItems f (d :: cs2)).map
            (fun p : List (String × JsonVal) × List Char => (JsonVal.jobj p.1, p.2))) = _
      rw [if_neg hdr]
      rw [← hdc]
      rw [parseObjItems_render (p :: tl) f rest (by simp) hall
        (by
          have : (renderJson (.jobj (p :: tl))).length =
              (renderObj (p :: tl)).length + 2 := by
            simp [renderJson]
          omega)]
      rfl

theorem parseJsonTop_render (v : JsonVal) (hv : RendersBack v) :
    parseJsonTop (String.mk (renderJson v)) = some v := by
  unfold parseJsonTop
  have hdata : (String.mk (renderJson v)).data = renderJson v := rfl
  rw [hdata]
  have := hv ((renderJson v).length + 2) [] (by omega)
  rw [List.append_nil] at this
  rw [this]
  rfl

theorem jsonObjFields_render (fields : List (String × JsonVal))
    (h : RendersBack (.jobj fields)) :
    jsonObjFields? (HeaderValue.text (String.mk (renderJson (.jobj fields)))) =
      some fields := by
  show (match parseJsonTop (String.mk (renderJson (.jobj fields))) with
    | some (.jobj fields) => some fields
    | _ => none) = some fields
  rw [parseJsonTop_render _ h]

theorem plainChar_valid {c : Char} (h : plainChar c = true) : validHeaderChar c = true := by
  obtain ⟨h1, h2, h3, h4⟩ := plainChar_elim h
  simp [validHeaderChar]
  omega

theorem validr_jstr (s : String) (hs : plainStr s = true) : ValidRender (.jstr s) := by
  unfold ValidRender
  simp only [renderJson, renderStr, escString_plain s.data hs]
  simp only [List.all_cons, List.all_append, Bool.and_eq_true]
  refine ⟨by decide, ?_, by decide⟩
  simp only [plainStr] at hs
  exact List.all_eq_true.mpr (fun c hc => plainChar_valid (List.all_eq_true.mp hs c hc))

theorem renderObj_valid :
    ∀ (fields : List (String × JsonVal)),
      (∀ p ∈ fields, plainStr p.1 = true ∧ ValidRender p.2) →
      (renderObj fields).all validHeaderChar = true := by
  intro fields
  induction fields with
  | nil => intro h; decide
  | cons p tl ih =>
    intro hall
    obtain ⟨k, v⟩ := p
    have hk := (hall (k, v) (by simp)).1
    have hv := (hall (k, v) (by simp)).2
    have hkv : (renderStr k).all validHeaderChar = true := by
      have := validr_jstr k hk
      simpa [ValidRender, renderJson] using this
    cases tl with
    | nil =>
      simp only [renderObj, List.all_append, List.all_cons, Bool.and_eq_true, and_assoc]
      exact ⟨hkv, by decide, hv⟩
    | cons q tl2 =>
      simp only [renderObj, List.all_append, List.all_cons, Bool.and_eq_true, and_assoc]
      exact ⟨hkv, by decide, hv, by decide, ih (fun p hp => hall p (by simp [hp]))⟩

theorem validr_obj (fields : List (String × JsonVal))
    (hall : ∀ p ∈ fields, plainStr p.1 = true ∧ ValidRender p.2) :
    ValidRender (.jobj fields) := by
  unfold ValidRender
  simp only [renderJson, List.all_append, List.all_cons, Bool.and_eq_true, and_assoc]
  exact ⟨by decide, renderObj_valid fields hall, by decide, by decide⟩

theorem lookupField_append (xs ys : List (String × JsonVal)) (k : String) :
    lookupField (xs ++ ys) k = lookupField xs k ++ lookupField ys k := by
  simp [lookupField, List.filter_append]

theorem lookupField_optStr_ne (n : String) (o : Option String) (k : String)
    (h : (n == k) = false) : lookupField (optStrField n o) k = [] := by
  cases o <;> simp [optStrField, lookupField, h]

theorem lookupField_optStr_self (n : String) (o : Option String) :
    lookupField (optStrField n o) n =
      (match o with | some s => [JsonVal.jstr s] | Option.none => []) := by
  cases o <;> simp [optStrField, lookupField]

theorem lookupField_optMap_ne (n : String) (o : Option (List (String × String))) (k : String)
    (h : (n == k) = false) : lookupField (optMapField n o) k = [] := by
  cases o <;> simp [optMapField, lookupField, h]

theorem lookupField_optMap_self (n : String) (o : Option (List (String × String))) :
    lookupField (optMapField n o) n =
      (match o with
      | some m => [JsonVal.jobj (m.map (fun p => (p.1, JsonVal.jstr p.2)))]
      | Option.none => []) := by
  cases o <;> simp [optMapField, lookupField]

theorem getStrField_ajax_source (ctx : AjaxContext) :
    getStrField (ajaxFields ctx) "source" = some ctx.source := by
  unfold getStrField
  rw [show lookupField (ajaxFields ctx) "source" =
      (match ctx.source with | some s => [JsonVal.jstr s] | Option.none => []) by
    simp [ajaxFields, lookupField_append,
      lookupField_optStr_self "source" ctx.source,
      lookupField_optStr_ne "event" ctx.event "source" (by decide),
      lookupField_optStr_ne "handler" ctx.handler "source" (by decide),
      lookupField_optStr_ne "target" ctx.target "source" (by decide),
      lookupField_optStr_ne "swap" ctx.swap "source" (by decide),
      lookupField_optMap_ne "values" ctx.values "source" (by decide),
      lookupField_optMap_ne "headers" ctx.headers "source" (by decide),
      lookupField_optStr_ne "select" ctx.select "source" (by decide)]]
  cases ctx.source <;> rfl

theorem strEntries?_map : ∀ (m : List (String × String)),
    strEntries? (m.map (fun p => (p.1, JsonVal.jstr p.2))) = some m := by
  intro m
  induction m with
  | nil => rfl
  | cons p tl ih =>
    obtain ⟨a, b⟩ := p
    simp only [List.map_cons, strEntries?, ih]
    rfl

theorem getStrField_ajax_event (ctx : AjaxContext) :
    getStrField (ajaxFields ctx) "event" = some ctx.event := by
  unfold getStrField
  rw [show lookupField (ajaxFields ctx) "event" =
      (match ctx.event with | some s => [JsonVal.jstr s] | Option.none => []) by
    simp [ajaxFields, lookupField_append,
      lookupField_optStr_ne "source" ctx.source "event" (by decide),
      lookupField_optStr_self "event" ctx.event,
      lookupField_optStr_ne "handler" ctx.handler "event" (by decide),
      lookupField_optStr_ne "target" ctx.target "event" (by decide),
      lookupField_optStr_ne "swap" ctx.swap "event" (by decide),
      lookupField_optMap_ne "values" ctx.values "event" (by decide),
      lookupField_optMap_ne "headers" ctx.headers "event" (by decide),
      lookupField_optStr_ne "select" ctx.select "event" (by decide)]]
  cases ctx.event <;> rfl

theorem getStrField_ajax_handler (ctx : AjaxContext) :
    getStrField (ajaxFields ctx) "handler" = some ctx.handler := by
  unfold getStrField
  rw [show lookupField (ajaxFields ctx) "handler" =
      (match ctx.handler with | some s => [JsonVal.jstr s] | Option.none => []) by
    simp [ajaxFields, lookupField_append,
      lookupField_optStr_ne "source" ctx.source "handler" (by decide),
      lookupField_optStr_ne "event" ctx.event "handler" (by decide),
      lookupField_optStr_self "handler" ctx.handler,
      lookupField_optStr_ne "target" ctx.target "handler" (by decide),
      lookupField_optStr_ne "swap" ctx.swap "handler" (by decide),
      lookupField_optMap_ne "values" ctx.values "handler" (by decide),
      lookupField_optMap_ne "headers" ctx.headers "handler" (by decide),
      lookupField_optStr_ne "select" ctx.select "handler" (by decide)]]
  cases ctx.handler <;> rfl

theorem getStrField_ajax_target (ctx : AjaxContext) :
    getStrField (ajaxFields ctx) "target" = some ctx.target := by
  unfold getStrField
  rw [show lookupField (ajaxFields ctx) "target" =
      (match ctx.target with | some s => [JsonVal.jstr s] | Option.none => []) by
    simp [ajaxFields, lookupField_append,
      lookupField_optStr_ne "source" ctx.source "target" (by decide),
      lookupField_optStr_ne "event" ctx.event "target" (by decide),
      lookupField_optStr_ne "handler" ctx.handler "target" (by decide),
      lookupField_optStr_self "target" ctx.target,
      lookupField_optStr_ne "swap" ctx.swap "target" (by decide),
      lookupField_optMap_ne "values" ctx.values "target" (by decide),
      lookupField_optMap_ne "headers" ctx.headers "target" (by decide),
      lookupField_optStr_ne "select" ctx.select "target" (by decide)]]
  cases ctx.target <;> rfl

theorem getStrField_ajax_swap (ctx : AjaxContext) :
    getStrField (ajaxFields ctx) "swap" = some ctx.swap := by
  unfold getStrField
  rw [show lookupField (ajaxFields ctx) "swap" =
      (match ctx.swap with | some s => [JsonVal.jstr s] | Option.none => []) by
    simp [ajaxFields, lookupField_append,
      lookupField_optStr_ne "source" ctx.source "swap" (by decide),
      lookupField_optStr_ne "event" ctx.event "swap" (by decide),
      lookupField_optStr_ne "handler" ctx.handler "swap" (by decide),
      lookupField_optStr_ne "target" ctx.target "swap" (by decide),
      lookupField_optStr_self "swap" ctx.swap,
      lookupField_optMap_ne "values" ctx.values "swap" (by decide),
      lookupField_optMap_ne "headers" ctx.headers "swap" (by decide),
      lookupField_optStr_ne "select" ctx.select "swap" (by decide)]]
  cases ctx.swap <;> rfl

theorem getMapField_ajax_values (ctx : AjaxContext) :
    getMapField (ajaxFields ctx) "values" = some ctx.values := by
  unfold getMapField
  rw [show lookupField (ajaxFields ctx) "values" =
      (match ctx.values with
      | some m => [JsonVal.jobj (m.map (fun p => (p.1, JsonVal.jstr p.2)))]
      | Option.none => []) by
    simp [ajaxFields, lookupField_append,
      lookupField_optStr_ne "source" ctx.source "values" (by decide),
      lookupField_optStr_ne "event" ctx.event "values" (by decide),
      lookupField_optStr_ne "handler" ctx.handler "values" (by decide),
      lookupField_optStr_ne "target" ctx.target "values" (by decide),
      lookupField_optStr_ne "swap" ctx.swap "values" (by decide),
      lookupField_optMap_self "values" ctx.values,
      lookupField_optMap_ne "headers" ctx.headers "values" (by decide),
      lookupField_optStr_ne "select" ctx.select "values" (by decide)]]
  cases ctx.values with
  | none => rfl
  | some m =>
    show (strEntries? (m.map (fun p => (p.1, JsonVal.jstr p.2)))).map some = some (some m)
    rw [strEntries?_map]
    rfl

theorem getMapField_ajax_headers (ctx : AjaxContext) :
    getMapField (ajaxFields ctx) "headers" = some ctx.headers := by
  unfold getMapField
  rw [show lookupField (ajaxFields ctx) "headers" =
      (match ctx.headers with
      | some m => [JsonVal.jobj (m.map (fun p => (p.1, JsonVal.jstr p.2)))]
      | Option.none => []) by
    simp [ajaxFields, lookupField_append,
      lookupField_optStr_ne "source" ctx.source "headers" (by decide),
      lookupField_optStr_ne "event" ctx.event "headers" (by decide),
      lookupField_optStr_ne "handler" ctx.handler "headers" (by decide),
      lookupField_optStr_ne "target" ctx.target "headers" (by decide),
      lookupField_optStr_ne "swap" ctx.swap "headers" (by decide),
      lookupField_optMap_ne "values" ctx.values "headers" (by decide),
      lookupField_optMap_self "headers" ctx.headers,
      lookupField_optStr_ne "select" ctx.select "headers" (by decide)]]
  cases ctx.headers with
  | none => rfl
  | some m =>
    show (strEntries? (m.map (fun p => (p.1, JsonVal.jstr p.2)))).map some = some (some m)
    rw [strEntries?_map]
    rfl

theorem getStrField_ajax_select (ctx : AjaxContext) :
    getStrField (ajaxFields ctx) "select" = some ctx.select := by
  unfold getStrField
  rw [show lookupField (ajaxFields ctx) "select" =
      (match ctx.select with | some s => [JsonVal.jstr s] | Option.none => []) by
    simp [ajaxFields, lookupField_append,
      lookupField_optStr_ne "source" ctx.source "select" (by decide),
      lookupField_optStr_ne "event" ctx.event "select" (by decide),
      lookupField_optStr_ne "handler" ctx.handler "select" (by decide),
      lookupField_optStr_ne "target" ctx.target "select" (by decide),
      lookupField_optStr_ne "swap" ctx.swap "select" (by decide),
      lookupField_optMap_ne "values" ctx.values "select" (by decide),
      lookupField_optMap_ne "headers" ctx.headers "select" (by decide),
      lookupField_optStr_self "select" ctx.select]]
  cases ctx.select <;> rfl

theorem ajaxFromFields_ajaxFields (ctx : AjaxContext) :
    ajaxFromFields (ajaxFields ctx) = some ctx := by
  unfold ajaxFromFields
  rw [getStrField_ajax_source, getStrField_ajax_event, getStrField_ajax_handler,
    getStrField_ajax_target, getStrField_ajax_swap, getMapField_ajax_values,
    getMapField_ajax_headers, getStrField_ajax_select]
  rfl

theorem filter_optStr_ne_path (n : String) (o : Option String) (h : (n ≠ "path") = True) :
    (optStrField n o).filter (fun p => p.1 ≠ "path") = optStrField n o := by
  cases o <;> simp [optStrField] <;> simp at h <;> exact h

theorem filter_optMap_ne_path (n : String) (o : Option (List (String × String)))
    (h : (n ≠ "path") = True) :
    (optMapField n o).filter (fun p => p.1 ≠ "path") = optMapField n o := by
  cases o <;> simp [optMapField] <;> simp at h <;> exact h

theorem filter_ajax_ne_path (ctx : AjaxContext) :
    (ajaxFields ctx).filter (fun p => p.1 ≠ "path") = ajaxFields ctx := by
  simp only [ajaxFields, List.filter_append,
    filter_optStr_ne_path "source" ctx.source (by simp),
    filter_optStr_ne_path "event" ctx.event (by simp),
    filter_optStr_ne_path "handler" ctx.handler (by simp),
    filter_optStr_ne_path "target" ctx.target (by simp),
    filter_optStr_ne_path "swap" ctx.swap (by simp),
    filter_optMap_ne_path "values" ctx.values (by simp),
    filter_optMap_ne_path "headers" ctx.headers (by simp),
    filter_optStr_ne_path "select" ctx.select (by simp)]

theorem lookupField_path_cons (u : String) (ctx : AjaxContext) :
    lookupField (("path", JsonVal.jstr u) :: ajaxFields ctx) "path" = [JsonVal.jstr u] := by
  have hrest : lookupField (ajaxFields ctx) "path" = [] := by
    simp [ajaxFields, lookupField_append,
      lookupField_optStr_ne "source" ctx.source "path" (by decide),
      lookupField_optStr_ne "event" ctx.event "path" (by decide),
      lookupField_optStr_ne "handler" ctx.handler "path" (by decide),
      lookupField_optStr_ne "target" ctx.target "path" (by decide),
      lookupField_optStr_ne "swap" ctx.swap "path" (by decide),
      lookupField_optMap_ne "values" ctx.values "path" (by decide),
      lookupField_optMap_ne "headers" ctx.headers "path" (by decide),
      lookupField_optStr_ne "select" ctx.select "path" (by decide)]
  have hfil : (ajaxFields ctx).filter (fun p => p.1 == "path") = [] := by
    have := hrest
    simp only [lookupField] at this
    exact List.map_eq_nil.mp this
  simp only [lookupField, List.filter_cons]
  rw [show ((("path", JsonVal.jstr u).1 == "path") = true) from by simp]
  simp [hfil]

theorem uri_parse_val (u : Uri) : Uri.parse? u.val = some u := by
  unfold Uri.parse?
  rw [dif_pos u.2]
  rfl

theorem optStr_good (n : String) (o : Option String) (hn : plainStr n = true)
    (ho : plainOptStr o = true) :
    ∀ p ∈ optStrField n o, plainStr p.1 = true ∧ RendersBack p.2 ∧ ValidRender p.2 := by
  cases o with
  | none => intro p hp; simp [optStrField] at hp
  | some s =>
    intro p hp
    simp only [optStrField, List.mem_singleton] at hp
    subst hp
    have hs : plainStr s = true := ho
    exact ⟨hn, rb_jstr s hs, validr_jstr s hs⟩

theorem optMap_good (n : String) (o : Option (List (String × String)))
    (hn : plainStr n = true) (ho : plainOptMap o = true) :
    ∀ p ∈ optMapField n o, plainStr p.1 = true ∧ RendersBack p.2 ∧ ValidRender p.2 := by
  cases o with
  | none => intro p hp; simp [optMapField] at hp
  | some m =>
    intro p hp
    simp only [optMapField, List.mem_singleton] at hp
    subst hp
    have hm : plainEntries m = true := ho
    have hent : ∀ q ∈ m.map (fun p => (p.1, JsonVal.jstr p.2)),
        plainStr q.1 = true ∧ RendersBack q.2 ∧ ValidRender q.2 := by
      intro q hq
      simp only [List.mem_map] at hq
      obtain ⟨a, ha, rfl⟩ := hq
      have := List.all_eq_true.mp hm a ha
      simp only [Bool.and_eq_true] at this
      exact ⟨this.1, rb_jstr a.2 this.2, validr_jstr a.2 this.2⟩
    exact ⟨hn, rb_obj _ (fun q hq => ⟨(hent q hq).1, (hent q hq).2.1⟩),
      validr_obj _ (fun q hq => ⟨(hent q hq).1, (hent q hq).2.2⟩)⟩

theorem plainCtx_elim (ctx : AjaxContext) (h : plainCtx ctx = true) :
    plainOptStr ctx.source = true ∧ plainOptStr ctx.event = true ∧
      plainOptStr ctx.handler = true ∧ plainOptStr ctx.target = true ∧
      plainOptStr ctx.swap = true ∧ plainOptMap ctx.values = true ∧
      plainOptMap ctx.headers = true ∧ plainOptStr ctx.select = true := by
  simp only [plainCtx, Bool.and_eq_true, and_assoc] at h
  exact h

theorem ajaxFields_good (ctx : AjaxContext) (h : plainCtx ctx = true) :
    ∀ p ∈ ajaxFields ctx, plainStr p.1 = true ∧ RendersBack p.2 ∧ ValidRender p.2 := by
  obtain ⟨h1, h2, h3, h4, h5, h6, h7, h8⟩ := plainCtx_elim ctx h
  intro p hp
  simp only [ajaxFields, List.mem_append] at hp
  rcases hp with ((((((hp | hp) | hp) | hp) | hp) | hp) | hp) | hp
  · exact optStr_good "source" ctx.source (by decide) h1 p hp
  · exact optStr_good "event" ctx.event (by decide) h2 p hp
  · exact optStr_good "handler" ctx.handler (by decide) h3 p hp
  · exact optStr_good "target" ctx.target (by decide) h4 p hp
  · exact optStr_good "swap" ctx.swap (by decide) h5 p hp
  · exact optMap_good "values" ctx.values (by decide) h6 p hp
  · exact optMap_good "headers" ctx.headers (by decide) h7 p hp
  · exact optStr_good "select" ctx.select (by decide) h8 p hp

theorem location_fields_good (path : Uri) (ctx : AjaxContext)
    (hpath : plainStr path.val = true) (hctx : plainCtx ctx = true) :
    ∀ p ∈ ("path", JsonVal.jstr path.val) :: ajaxFields ctx,
      plainStr p.1 = true ∧ RendersBack p.2 ∧ ValidRender p.2 := by
  intro p hp
  rcases List.mem_cons.mp hp with hp | hp
  · subst hp
    exact ⟨(by decide : plainStr "path" = true), rb_jstr path.val hpath,
      validr_jstr path.val hpath⟩
  · exact ajaxFields_good ctx hctx p hp

theorem ajaxFields_keys (ctx : AjaxContext) :
    ∀ p ∈ ajaxFields ctx, p.1 = "source" ∨ p.1 = "event" ∨ p.1 = "handler" ∨
      p.1 = "target" ∨ p.1 = "swap" ∨ p.1 = "values" ∨ p.1 = "headers" ∨
      p.1 = "select" := by
  intro p hp
  simp only [ajaxFields, List.mem_append] at hp
  rcases hp with ((((((hp | hp) | hp) | hp) | hp) | hp) | hp) | hp
  · rcases h : ctx.source with _ | s
    · rw [h] at hp; simp [optStrField] at hp
    · rw [h] at hp; simp only [optStrField, List.mem_singleton] at hp; subst hp; simp
  · rcases h : ctx.event with _ | s
    · rw [h] at hp; simp [optStrField] at hp
    · rw [h] at hp; simp only [optStrField, List.mem_singleton] at hp; subst hp; simp
  · rcases h : ctx.handler with _ | s
    · rw [h] at hp; simp [optStrField] at hp
    · rw [h] at hp; simp only [optStrField, List.mem_singleton] at hp; subst hp; simp
  · rcases h : ctx.target with _ | s
    · rw [h] at hp; simp [optStrField] at hp
    · rw [h] at hp; simp only [optStrField, List.mem_singleton] at hp; subst hp; simp
  · rcases h : ctx.swap with _ | s
    · rw [h] at hp; simp [optStrField] at hp
    · rw [h] at hp; simp only [optStrField, List.mem_singleton] at hp; subst hp; simp
  · rcases h : ctx.values with _ | s
    · rw [h] at hp; simp [optMapField] at hp
    · rw [h] at hp; simp only [optMapField, List.mem_singleton] at hp; subst hp; simp
  · rcases h : ctx.headers with _ | s
    · rw [h] at hp; simp [optMapField] at hp
    · rw [h] at hp; simp only [optMapField, List.mem_singleton] at hp; subst hp; simp
  · rcases h : ctx.select with _ | s
    · rw [h] at hp; simp [optStrField] at hp
    · rw [h] at hp; simp only [optStrField, List.mem_singleton] at hp; subst hp; simp

theorem location_encode_ctx (path : Uri) (ctx : AjaxContext)
    (hpath : plainStr path.val = true) (hctx : plainCtx ctx = true) :
    HxLocation.encode ⟨path, some ctx⟩ =
      some [HeaderValue.text (String.mk (renderJson
        (.jobj (("path", JsonVal.jstr path.val) :: ajaxFields ctx))))] := by
  have hgood := location_fields_good path ctx hpath hctx
  have hvr := validr_obj _ (fun p hp => ⟨(hgood p hp).1, (hgood p hp).2.2⟩)
  have hvalid : validHeaderString (String.mk (renderJson
      (.jobj (("path", JsonVal.jstr path.val) :: ajaxFields ctx)))) = true := hvr
  show (HeaderValue.fromStr? (String.mk (renderJson
      (.jobj (("path", JsonVal.jstr path.val) :: ajaxFields ctx))))).map (fun v => [v]) = _
  rw [HeaderValue.fromStr?, if_pos hvalid]
  rfl

theorem location_decode_rendered (path : Uri) (ctx : AjaxContext)
    (hpath : plainStr path.val = true) (hctx : plainCtx ctx = true) :
    HxLocation.decode [HeaderValue.text (String.mk (renderJson
        (.jobj (("path", JsonVal.jstr path.val) :: ajaxFields ctx))))] =
      some ⟨path, some ctx⟩ := by
  have hgood := location_fields_good path ctx hpath hctx
  have hrb := rb_obj _ (fun p hp => ⟨(hgood p hp).1, (hgood p hp).2.1⟩)
  have hjf := jsonObjFields_render _ hrb
  have hfilter : ((("path", JsonVal.jstr path.val) :: ajaxFields ctx).filter
      (fun p => p.1 ≠ "path")) = ajaxFields ctx := by
    simp only [List.filter_cons]
    simp only [show (decide ((("path", JsonVal.jstr path.val) : String × JsonVal).1 ≠ "path")) =
      false from by simp, if_false]
    exact filter_ajax_ne_path ctx
  simp only [HxLocation.decode, hjf, lookupField_path_cons, Option.bind_eq_bind',
    Option.some_bind, uri_parse_val, hfilter, ajaxFromFields_ajaxFields]

theorem splitComma_no_comma : ∀ (cs : List Char), ',' ∉ cs → splitComma cs = [cs] := by
  intro cs
  induction cs with
  | nil => intro h; rfl
  | cons c cs ih =>
    intro h
    have hc : ¬c = ',' := fun he => h (he ▸ List.mem_cons_self c cs)
    have hcs : ',' ∉ cs := fun hm => h (List.mem_cons_of_mem c hm)
    simp only [splitComma, if_neg hc, ih hcs]

theorem splitComma_append : ∀ (xs ys : List Char), ',' ∉ xs →
    splitComma (xs ++ ',' :: ys) = xs :: splitComma ys := by
  intro xs
  induction xs with
  | nil =>
    intro ys h
    simp [splitComma]
  | cons c cs ih =>
    intro ys h
    have hc : ¬c = ',' := fun he => h (he ▸ List.mem_cons_self c cs)
    have hcs : ',' ∉ cs := fun hm => h (List.mem_cons_of_mem c hm)
    rw [List.cons_append]
    simp only [splitComma, if_neg hc, ih ys hcs]

theorem trim_space (cs : List Char) : trimChars (' ' :: cs) = trimChars cs := by
  simp [trimChars, List.dropWhile, show rustWhitespace ' ' = true by decide]

theorem trigger_list_split : ∀ (l : List String), l ≠ [] →
    (∀ s ∈ l, ',' ∉ s.data ∧ trimChars s.data = s.data) →
    strSplitTrim (strJoin l) = l := by
  intro l
  induction l with
  | nil => intro h; exact absurd rfl h
  | cons x tl ih =>
    intro hne hall
    have hx := hall x (by simp)
    cases tl with
    | nil =>
      show (splitComma (joinCommaSpace [x.data])).map (fun cs => String.mk (trimChars cs)) = [x]
      rw [show joinCommaSpace [x.data] = x.data from rfl, splitComma_no_comma x.data hx.1]
      simp [hx.2]
    | cons y tl2 =>
      show (splitComma (joinCommaSpace (x.data :: (y :: tl2).map String.data))).map
          (fun cs => String.mk (trimChars cs)) = x :: y :: tl2
      rw [show joinCommaSpace (x.data :: (y :: tl2).map String.data) =
          x.data ++ ',' :: ' ' :: joinCommaSpace ((y :: tl2).map String.data) from by
        simp [joinCommaSpace]]
      rw [splitComma_append x.data _ hx.1]
      have hrec := ih (by simp) (fun s hs => hall s (by simp [hs]))
      have hsplit : ∃ h t, splitComma (joinCommaSpace ((y :: tl2).map String.data)) = h :: t := by
        cases hsp : splitComma (joinCommaSpace ((y :: tl2).map String.data)) with
        | nil =>
          exfalso
          have : strSplitTrim (strJoin (y :: tl2)) = [] := by
            unfold strSplitTrim strJoin
            rw [show (String.mk (joinCommaSpace ((y :: tl2).map String.data))).data =
              joinCommaSpace ((y :: tl2).map String.data) from rfl]
            rw [hsp]
            rfl
          rw [hrec] at this
          exact List.noConfusion this
        | cons h t => exact ⟨h, t, rfl⟩
      obtain ⟨h, t, hsp⟩ := hsplit
      rw [show (' ' :: joinCommaSpace ((y :: tl2).map String.data)) =
        ' ' :: joinCommaSpace ((y :: tl2).map String.data) from rfl]
      rw [show splitComma (' ' :: joinCommaSpace ((y :: tl2).map String.data)) =
          (' ' :: h) :: t from by
        simp only [splitComma, if_neg (show ¬(' ' = ',') by decide), hsp]]
      simp only [List.map_cons]
      rw [trim_space h]
      have hrest : (splitComma (joinCommaSpace ((y :: tl2).map String.data))).map
          (fun cs => String.mk (trimChars cs)) = y :: tl2 := hrec
      rw [hsp] at hrest
      simp only [List.map_cons] at hrest
      rw [show String.mk (trimChars x.data) = x from by rw [hx.2]]
      rw [show (String.mk (trimChars h) :: t.map (fun cs => String.mk (trimChars cs))) =
        y :: tl2 from hrest]

theorem strJoin_valid : ∀ (l : List String), (∀ s ∈ l, validHeaderString s = true) →
    validHeaderString (strJoin l) = true := by
  intro l
  induction l with
  | nil => intro h; rfl
  | cons x tl ih =>
    intro hall
    have hx := hall x (by simp)
    cases tl with
    | nil =>
      show (joinCommaSpace [x.data]).all validHeaderChar = true
      exact hx
    | cons y tl2 =>
      show (joinCommaSpace (x.data :: (y :: tl2).map String.data)).all validHeaderChar = true
      rw [show joinCommaSpace (x.data :: (y :: tl2).map String.data) =
          x.data ++ ',' :: ' ' :: joinCommaSpace ((y :: tl2).map String.data) from by
        simp [joinCommaSpace]]
      simp only [List.all_append, List.all_cons, Bool.and_eq_true, and_assoc]
      exact ⟨hx, by decide, by decide, ih (fun s hs => hall s (by simp [hs]))⟩

theorem mem_ajax_source (ctx : AjaxContext) (jv : JsonVal) :
    ("source", jv) ∈ ajaxFields ctx ↔ (∃ s, ctx.source = some s ∧ jv = JsonVal.jstr s) := by
  constructor
  · intro hp
    simp only [ajaxFields, List.mem_append] at hp
    rcases hp with ((((((hp | hp) | hp) | hp) | hp) | hp) | hp) | hp
    · rcases hv : ctx.source with _ | s0
      · rw [hv] at hp; simp [optStrField] at hp
      · rw [hv] at hp
        simp only [optStrField, List.mem_singleton, Prod.mk.injEq] at hp
        exact ⟨s0, rfl, hp.2⟩
    · rcases hv : ctx.event with _ | s0
      · rw [hv] at hp; simp [optStrField] at hp
      · rw [hv] at hp; simp [optStrField] at hp
    · rcases hv : ctx.handler with _ | s0
      · rw [hv] at hp; simp [optStrField] at hp
      · rw [hv] at hp; simp [optStrField] at hp
    · rcases hv : ctx.target with _ | s0
      · rw [hv] at hp; simp [optStrField] at hp
      · rw [hv] at hp; simp [optStrField] at hp
    · rcases hv : ctx.swap with _ | s0
      · rw [hv] at hp; simp [optStrField] at hp
      · rw [hv] at hp; simp [optStrField] at hp
    · rcases hv : ctx.values with _ | s0
      · rw [hv] at hp; simp [optMapField] at hp
      · rw [hv] at hp; simp [optMapField] at hp
    · rcases hv : ctx.headers with _ | s0
      · rw [hv] at hp; simp [optMapField] at hp
      · rw [hv] at hp; simp [optMapField] at hp
    · rcases hv : ctx.select with _ | s0
      · rw [hv] at hp; simp [optStrField] at hp
      · rw [hv] at hp; simp [optStrField] at hp
  · rintro ⟨s0, hs, rfl⟩
    simp [ajaxFields, optStrField, optMapField, hs]

theorem mem_ajax_event (ctx : AjaxContext) (jv : JsonVal) :
    ("event", jv) ∈ ajaxFields ctx ↔ (∃ s, ctx.event = some s ∧ jv = JsonVal.jstr s) := by
  constructor
  · intro hp
    simp only [ajaxFields, List.mem_append] at hp
    rcases hp with ((((((hp | hp) | hp) | hp) | hp) | hp) | hp) | hp
    · rcases hv : ctx.source with _ | s0
      · rw [hv] at hp; simp [optStrField] at hp
      · rw [hv] at hp; simp [optStrField] at hp
    · rcases hv : ctx.event with _ | s0
      · rw [hv] at hp; simp [optStrField] at hp
      · rw [hv] at hp
        simp only [optStrField, List.mem_singleton, Prod.mk.injEq] at hp
        exact ⟨s0, rfl, hp.2⟩
    · rcases hv : ctx.handler with _ | s0
      · rw [hv] at hp; simp [optStrField] at hp
      · rw [hv] at hp; simp [optStrField] at hp
    · rcases hv : ctx.target with _ | s0
      · rw [hv] at hp; simp [optStrField] at hp
      · rw [hv] at hp; simp [optStrField] at hp
    · rcases hv : ctx.swap with _ | s0
      · rw [hv] at hp; simp [optStrField] at hp
      · rw [hv] at hp; simp [optStrField] at hp
    · rcases hv : ctx.values with _ | s0
      · rw [hv] at hp; simp [optMapField] at hp
      · rw [hv] at hp; simp [optMapField] at hp
    · rcases hv : ctx.headers with _ | s0
      · rw [hv] at hp; simp [optMapField] at hp
      · rw [hv] at hp; simp [optMapField] at hp
    · rcases hv : ctx.select with _ | s0
      · rw [hv] at hp; simp [optStrField] at hp
      · rw [hv] at hp; simp [optStrField] at hp
  · rintro ⟨s0, hs, rfl⟩
    simp [ajaxFields, optStrField, optMapField, hs]

theorem mem_ajax_handler (ctx : AjaxContext) (jv : JsonVal) :
    ("handler", jv) ∈ ajaxFields ctx ↔ (∃ s, ctx.handler = some s ∧ jv = JsonVal.jstr s) := by
  constructor
  · intro hp
    simp only [ajaxFields, List.mem_append] at hp
    rcases hp with ((((((hp | hp) | hp) | hp) | hp) | hp) | hp) | hp
    · rcases hv : ctx.source with _ | s0
      · rw [hv] at hp; simp [optStrField] at hp
      · rw [hv] at hp; simp [optStrField] at hp
    · rcases hv : ctx.event with _ | s0
      · rw [hv] at hp; simp [optStrField] at hp
      · rw [hv] at hp; simp [optStrField] at hp
    · rcases hv : ctx.handler with _ | s0
      · rw [hv] at hp; simp [optStrField] at hp
      · rw [hv] at hp
        simp only [optStrField, List.mem_singleton, Prod.mk.injEq] at hp
        exact ⟨s0, rfl, hp.2⟩
    · rcases hv : ctx.target with _ | s0
      · rw [hv] at hp; simp [optStrField] at hp
      · rw [hv] at hp; simp [optStrField] at hp
    · rcases hv : ctx.swap with _ | s0
      · rw [hv] at hp; simp [optStrField] at hp
      · rw [hv] at hp; simp [optStrField] at hp
    · rcases hv : ctx.values with _ | s0
      · rw [hv] at hp; simp [optMapField] at hp
      · rw [hv] at hp; simp [optMapField] at hp
    · rcases hv : ctx.headers with _ | s0
      · rw [hv] at hp; simp [optMapField] at hp
      · rw [hv] at hp; simp [optMapField] at hp
    · rcases hv : ctx.select with _ | s0
      · rw [hv] at hp; simp [optStrField] at hp
      · rw [hv] at hp; simp [optStrField] at hp
  · rintro ⟨s0, hs, rfl⟩
    simp [ajaxFields, optStrField, optMapField, hs]

theorem mem_ajax_target (ctx : AjaxContext) (jv : JsonVal) :
    ("target", jv) ∈ ajaxFields ctx ↔ (∃ s, ctx.target = some s ∧ jv = JsonVal.jstr s) := by
  constructor
  · intro hp
    simp only [ajaxFields, List.mem_append] at hp
    rcases hp with ((((((hp | hp) | hp) | hp) | hp) | hp) | hp) | hp
    · rcases hv : ctx.source with _ | s0
      · rw [hv] at hp; simp [optStrField] at hp
      · rw [hv] at hp; simp [optStrField] at hp
    · rcases hv : ctx.event with _ | s0
      · rw [hv] at hp; simp [optStrField] at hp
      · rw [hv] at hp; simp [optStrField] at hp
    · rcases hv : ctx.handler with _ | s0
      · rw [hv] at hp; simp [optStrField] at hp
      · rw [hv] at hp; simp [optStrField] at hp
    · rcases hv : ctx.target with _ | s0
      · rw [hv] at hp; simp [optStrField] at hp
      · rw [hv] at hp
        simp only [optStrField, List.mem_singleton, Prod.mk.injEq] at hp
        exact ⟨s0, rfl, hp.2⟩
    · rcases hv : ctx.swap with _ | s0
      · rw [hv] at hp; simp [optStrField] at hp
      · rw [hv] at hp; simp [optStrField] at hp
    · rcases hv : ctx.values with _ | s0
      · rw [hv] at hp; simp [optMapField] at hp
      · rw [hv] at hp; simp [optMapField] at hp
    · rcases hv : ctx.headers with _ | s0
      · rw [hv] at hp; simp [optMapField] at hp
      · rw [hv] at hp; simp [optMapField] at hp
    · rcases hv : ctx.select with _ | s0
      · rw [hv] at hp; simp [optStrField] at hp
      · rw [hv] at hp; simp [optStrField] at hp
  · rintro ⟨s0, hs, rfl⟩
    simp [ajaxFields, optStrField, optMapField, hs]

theorem mem_ajax_swap (ctx : AjaxContext) (jv : JsonVal) :
    ("swap", jv) ∈ ajaxFields ctx ↔ (∃ s, ctx.swap = some s ∧ jv = JsonVal.jstr s) := by
  constructor
  · intro hp
    simp only [ajaxFields, List.mem_append] at hp
    rcases hp with ((((((hp | hp) | hp) | hp) | hp) | hp) | hp) | hp
    · rcases hv : ctx.source with _ | s0
      · rw [hv] at hp; simp [optStrField] at hp
      · rw [hv] at hp; simp [optStrField] at hp
    · rcases hv : ctx.event with _ | s0
      · rw [hv] at hp; simp [optStrField] at hp
      · rw [hv] at hp; simp [optStrField] at hp
    · rcases hv : ctx.handler with _ | s0
      · rw [hv] at hp; simp [optStrField] at hp
      · rw [hv] at hp; simp [optStrField] at hp
    · rcases hv : ctx.target with _ | s0
      · rw [hv] at hp; simp [optStrField] at hp
      · rw [hv] at hp; simp [optStrField] at hp
    · rcases hv : ctx.swap with _ | s0
      · rw [hv] at hp; simp [optStrField] at hp
      · rw [hv] at hp
        simp only [optStrField, List.mem_singleton, Prod.mk.injEq] at hp
        exact ⟨s0, rfl, hp.2⟩
    · rcases hv : ctx.values with _ | s0
      · rw [hv] at hp; simp [optMapField] at hp
      · rw [hv] at hp; simp [optMapField] at hp
    · rcases hv : ctx.headers with _ | s0
      · rw [hv] at hp; simp [optMapField] at hp
      · rw [hv] at hp; simp [optMapField] at hp
    · rcases hv : ctx.select with _ | s0
      · rw [hv] at hp; simp [optStrField] at hp
      · rw [hv] at hp; simp [optStrField] at hp
  · rintro ⟨s0, hs, rfl⟩
    simp [ajaxFields, optStrField, optMapField, hs]

theorem mem_ajax_values (ctx : AjaxContext) (jv : JsonVal) :
    ("values", jv) ∈ ajaxFields ctx ↔ (∃ m, ctx.values = some m ∧ jv = JsonVal.jobj (m.map (fun p => (p.1, JsonVal.jstr p.2)))) := by
  constructor
  · intro hp
    simp only [ajaxFields, List.mem_append] at hp
    rcases hp with ((((((hp | hp) | hp) | hp) | hp) | hp) | hp) | hp
    · rcases hv : ctx.source with _ | s0
      · rw [hv] at hp; simp [optStrField] at hp
      · rw [hv] at hp; simp [optStrField] at hp
    · rcases hv : ctx.event with _ | s0
      · rw [hv] at hp; simp [optStrField] at hp
      · rw [hv] at hp; simp [optStrField] at hp
    · rcases hv : ctx.handler with _ | s0
      · rw [hv] at hp; simp [optStrField] at hp
      · rw [hv] at hp; simp [optStrField] at hp
    · rcases hv : ctx.target with _ | s0
      · rw [hv] at hp; simp [optStrField] at hp
      · rw [hv] at hp; simp [optStrField] at hp
    · rcases hv : ctx.swap with _ | s0
      · rw [hv] at hp; simp [optStrField] at hp
      · rw [hv] at hp; simp [optStrField] at hp
    · rcases hv : ctx.values with _ | s0
      · rw [hv] at hp; simp [optMapField] at hp
      · rw [hv] at hp
        simp only [optMapField, List.mem_singleton, Prod.mk.injEq] at hp
        exact ⟨s0, rfl, hp.2⟩
    · rcases hv : ctx.headers with _ | s0
      · rw [hv] at hp; simp [optMapField] at hp
      · rw [hv] at hp; simp [optMapField] at hp
    · rcases hv : ctx.select with _ | s0
      · rw [hv] at hp; simp [optStrField] at hp
      · rw [hv] at hp; simp [optStrField] at hp
  · rintro ⟨s0, hs, rfl⟩
    simp [ajaxFields, optStrField, optMapField, hs]

theorem mem_ajax_headers (ctx : AjaxContext) (jv : JsonVal) :
    ("headers", jv) ∈ ajaxFields ctx ↔ (∃ m, ctx.headers = some m ∧ jv = JsonVal.jobj (m.map (fun p => (p.1, JsonVal.jstr p.2)))) := by
  constructor
  · intro hp
    simp only [ajaxFields, List.mem_append] at hp
    rcases hp with ((((((hp | hp) | hp) | hp) | hp) | hp) | hp) | hp
    · rcases hv : ctx.source with _ | s0
      · rw [hv] at hp; simp [optStrField] at hp
      · rw [hv] at hp; simp [optStrField] at hp
    · rcases hv : ctx.event with _ | s0
      · rw [hv] at hp; simp [optStrField] at hp
      · rw [hv] at hp; simp [optStrField] at hp
    · rcases hv : ctx.handler with _ | s0
      · rw [hv] at hp; simp [optStrField] at hp
      · rw [hv] at hp; simp [optStrField] at hp
    · rcases hv : ctx.target with _ | s0
      · rw [hv] at hp; simp [optStrField] at hp
      · rw [hv] at hp; simp [optStrField] at hp
    · rcases hv : ctx.swap with _ | s0
      · rw [hv] at hp; simp [optStrField] at hp
      · rw [hv] at hp; simp [optStrField] at hp
    · rcases hv : ctx.values with _ | s0
      · rw [hv] at hp; simp [optMapField] at hp
      · rw [hv] at hp; simp [optMapField] at hp
    · rcases hv : ctx.headers with _ | s0
      · rw [hv] at hp; simp [optMapField] at hp
      · rw [hv] at hp
        simp only [optMapField, List.mem_singleton, Prod.mk.injEq] at hp
        exact ⟨s0, rfl, hp.2⟩
    · rcases hv : ctx.select with _ | s0
      · rw [hv] at hp; simp [optStrField] at hp
      · rw [hv] at hp; simp [optStrField] at hp
  · rintro ⟨s0, hs, rfl⟩
    simp [ajaxFields, optStrField, optMapField, hs]

theorem mem_ajax_select (ctx : AjaxContext) (jv : JsonVal) :
    ("select", jv) ∈ ajaxFields ctx ↔ (∃ s, ctx.select = some s ∧ jv = JsonVal.jstr s) := by
  constructor
  · intro hp
    simp only [ajaxFields, List.mem_append] at hp
    rcases hp with ((((((hp | hp) | hp) | hp) | hp) | hp) | hp) | hp
    · rcases hv : ctx.source with _ | s0
      · rw [hv] at hp; simp [optStrField] at hp
      · rw [hv] at hp; simp [optStrField] at hp
    · rcases hv : ctx.event with _ | s0
      · rw [hv] at hp; simp [optStrField] at hp
      · rw [hv] at hp; simp [optStrField] at hp
    · rcases hv : ctx.handler with _ | s0
      · rw [hv] at hp; simp [optStrField] at hp
      · rw [hv] at hp; simp [optStrField] at hp
    · rcases hv : ctx.target with _ | s0
      · rw [hv] at hp; simp [optStrField] at hp
      · rw [hv] at hp; simp [optStrField] at hp
    · rcases hv : ctx.swap with _ | s0
      · rw [hv] at hp; simp [optStrField] at hp
      · rw [hv] at hp; simp [optStrField] at hp
    · rcases hv : ctx.values with _ | s0
      · rw [hv] at hp; simp [optMapField] at hp
      · rw [hv] at hp; simp [optMapField] at hp
    · rcases hv : ctx.headers with _ | s0
      · rw [hv] at hp; simp [optMapField] at hp
      · rw [hv] at hp; simp [optMapField] at hp
    · rcases hv : ctx.select with _ | s0
      · rw [hv] at hp; simp [optStrField] at hp
      · rw [hv] at hp
        simp only [optStrField, List.mem_singleton, Prod.mk.injEq] at hp
        exact ⟨s0, rfl, hp.2⟩
  · rintro ⟨s0, hs, rfl⟩
    simp [ajaxFields, optStrField, optMapField, hs]

theorem uriOk_valid {s : String} (h : uriOk s = true) : validHeaderString s = true := by
  simp only [uriOk, Bool.and_eq_true] at h
  refine List.all_eq_true.mpr (fun c hc => ?_)
  have hc2 := List.all_eq_true.mp h.2 c hc
  simp only [Bool.and_eq_true, decide_eq_true_eq] at hc2
  simp only [validHeaderChar, Bool.or_eq_true, Bool.and_eq_true, decide_eq_true_eq,
    bne_iff_ne, ne_eq]
  exact Or.inr ⟨by omega, by omega⟩

theorem visibleChar_valid {c : Char} (h : visibleAsciiChar c = true) :
    validHeaderChar c = true := by
  simp only [visibleAsciiChar, Bool.or_eq_true, Bool.and_eq_true, decide_eq_true_eq] at h
  simp only [validHeaderChar, Bool.or_eq_true, Bool.and_eq_true, decide_eq_true_eq,
    bne_iff_ne, ne_eq]
  rcases h with h | h
  · exact Or.inl h
  · exact Or.inr ⟨h.1, by omega⟩

theorem visibleString_valid {s : String} (h : s.data.all visibleAsciiChar = true) :
    validHeaderString s = true :=
  List.all_eq_true.mpr (fun c hc => visibleChar_valid (List.all_eq_true.mp h c hc))

theorem strJoin_visible : ∀ (l : List String),
    (∀ s ∈ l, s.data.all visibleAsciiChar = true) →
    (strJoin l).data.all visibleAsciiChar = true := by
  intro l
  induction l with
  | nil => intro h; rfl
  | cons x tl ih =>
    intro hall
    have hx := hall x (by simp)
    cases tl with
    | nil =>
      show (joinCommaSpace [x.data]).all visibleAsciiChar = true
      exact hx
    | cons y tl2 =>
      show (joinCommaSpace (x.data :: (y :: tl2).map String.data)).all
          visibleAsciiChar = true
      rw [show joinCommaSpace (x.data :: (y :: tl2).map String.data) =
          x.data ++ ',' :: ' ' :: joinCommaSpace ((y :: tl2).map String.data) from by
        simp [joinCommaSpace]]
      simp only [List.all_append, List.all_cons, Bool.and_eq_true, and_assoc]
      exact ⟨hx, by decide, by decide, ih (fun s hs => hall s (by simp [hs]))⟩

theorem withDetails_fields_good (m : List (String × JsonVal))
    (h : m.all (fun p => plainStr p.1 && plainJsonStr p.2) = true) :
    ∀ p ∈ m, plainStr p.1 = true ∧ RendersBack p.2 ∧ ValidRender p.2 := by
  intro p hp
  have hh := List.all_eq_true.mp h p hp
  simp only [Bool.and_eq_true] at hh
  obtain ⟨h1, h2⟩ := hh
  cases hv : p.2 with
  | jstr t =>
    rw [hv] at h2
    have h3 : plainStr t = true := h2
    exact ⟨h1, rb_jstr t h3, validr_jstr t h3⟩
  | jnull => rw [hv] at h2; simp [plainJsonStr] at h2
  | jbool b => rw [hv] at h2; simp [plainJsonStr] at h2
  | jnum lx => rw [hv] at h2; simp [plainJsonStr] at h2
  | jarr xs => rw [hv] at h2; simp [plainJsonStr] at h2
  | jobj fs => rw [hv] at h2; simp [plainJsonStr] at h2

/-- C1 counterexample: an hx-location value with no context encodes to the
bare URI value, which the decoder, requiring JSON, rejects; the round trip
is undefined rather than the identity. -/
theorem claim_c1_roundtrip_counterexample :
    HxLocation.encode ⟨⟨"/test", by decide⟩, Option.none⟩ =
        some [HeaderValue.text "/test"] ∧
      HxLocation.decode [HeaderValue.text "/test"] = Option.none :=
  ⟨rfl, rfl⟩

/-- C1 amended: decode recovers every encoded value for the boolean
sentinel, swap, URI convert and history codecs, for string headers on
visible ASCII strings, for hx-location values carrying a context of plain
text, and for triggers whose detail map is plain or whose event list is
nonempty, comma free, trim stable, visible ASCII and does not look like a
JSON object; the hx-location bare form is the stated exception. -/
theorem claim_c1_roundtrip_amended :
    (trueHeaderDecode trueHeaderEncode = some ()) ∧
      (∀ s, s.data.all visibleAsciiChar = true →
        (stringHeaderEncode s).bind stringHeaderDecode = some s) ∧
      (∀ u : Uri, (convertHeaderEncode u).bind convertHeaderDecode = some u) ∧
      (∀ h : HxReswap, HxReswap.decode (HxReswap.encode h) = some h) ∧
      (∀ M : Type, (HxModifyHistory.encode (.noChange : HxModifyHistory M)).bind
        (HxModifyHistory.decode M) = some .noChange) ∧
      (∀ (M : Type) (u : Uri), u.val ≠ "false" →
        (HxModifyHistory.encode (.uri u : HxModifyHistory M)).bind
          (HxModifyHistory.decode M) = some (.uri u)) ∧
      (∀ (path : Uri) (ctx : AjaxContext), plainStr path.val = true →
        plainCtx ctx = true →
        (HxLocation.encode ⟨path, some ctx⟩).bind HxLocation.decode =
          some ⟨path, some ctx⟩) ∧
      (∀ (After : Type) (m : List (String × JsonVal)),
        m.all (fun p => plainStr p.1 && plainJsonStr p.2) = true →
        (HxTrigger.encode (.withDetails m : HxTrigger After)).bind
          (HxTrigger.decode After) = some (.withDetails m)) ∧
      (∀ (After : Type) (l : List String), l ≠ [] →
        (∀ s ∈ l, ',' ∉ s.data ∧ trimChars s.data = s.data ∧
          s.data.all visibleAsciiChar = true) →
        jsonObjFields? (HeaderValue.text (strJoin l)) = Option.none →
        (HxTrigger.encode (.list l : HxTrigger After)).bind (HxTrigger.decode After) =
          some (.list l)) := by
  refine ⟨rfl, ?_, ?_, ?_, ?_, ?_, ?_, ?_, ?_⟩
  · intro s h
    have hv := visibleString_valid h
    simp [stringHeaderEncode, HeaderValue.fromStr?, hv, Option.bind_eq_bind',
      Option.some_bind, stringHeaderDecode, HeaderValue.toStr?, h]
    exact List.all_eq_true.mp h
  · intro u
    simp [convertHeaderEncode, HeaderValue.fromStr?, uriOk_valid u.2,
      Option.bind_eq_bind', Option.some_bind, convertHeaderDecode, uri_parse_val]
  · intro h
    obtain ⟨sw⟩ := h
    cases sw <;> rfl
  · intro M
    rfl
  · intro M u hne
    have hv := uriOk_valid u.2
    simp [HxModifyHistory.encode, HeaderValue.fromStr?, hv, Option.bind_eq_bind',
      Option.some_bind, HxModifyHistory.decode, HeaderValue.eqStr, hne, uri_parse_val]
  · intro path ctx h1 h2
    rw [location_encode_ctx path ctx h1 h2]
    simp only [Option.bind_eq_bind', Option.some_bind]
    exact location_decode_rendered path ctx h1 h2
  · intro After m hm
    have hgood := withDetails_fields_good m hm
    have hvr := validr_obj _ (fun p hp => ⟨(hgood p hp).1, (hgood p hp).2.2⟩)
    have hrb := rb_obj _ (fun p hp => ⟨(hgood p hp).1, (hgood p hp).2.1⟩)
    have henc : HxTrigger.encode (.withDetails m : HxTrigger After) =
        some [HeaderValue.text (String.mk (renderJson (.jobj m)))] := by
      have hvalid : validHeaderString (String.mk (renderJson (.jobj m))) = true := hvr
      show (HeaderValue.fromStr? (String.mk (renderJson (.jobj m)))).map
        (fun v => [v]) = _
      rw [HeaderValue.fromStr?, if_pos hvalid]
      rfl
    rw [henc]
    simp only [Option.bind_eq_bind', Option.some_bind]
    simp only [HxTrigger.decode, jsonObjFields_render _ hrb]
  · intro After l hne hall hjson
    have hvis : (strJoin l).data.all visibleAsciiChar = true :=
      strJoin_visible l (fun s hs => (hall s hs).2.2)
    have hv : validHeaderString (strJoin l) = true :=
      strJoin_valid l (fun s hs => visibleString_valid (hall s hs).2.2)
    have henc : HxTrigger.encode (.list l : HxTrigger After) =
        some [HeaderValue.text (strJoin l)] := by
      show (HeaderValue.fromStr? (strJoin l)).map (fun v => [v]) = _
      rw [HeaderValue.fromStr?, if_pos hv]
      rfl
    rw [henc]
    simp only [Option.bind_eq_bind', Option.some_bind]
    simp only [HxTrigger.decode, hjson]
    rw [show HeaderValue.toStr? (HeaderValue.text (strJoin l)) = some (strJoin l) from by
      simp [HeaderValue.toStr?, hvis]]
    simp only [Option.map_some']
    rw [trigger_list_split l hne (fun s hs => ⟨(hall s hs).1, (hall s hs).2.1⟩)]

/-- C1 witness: concrete round trips through the amended statement. -/
theorem claim_c1_roundtrip_amended_witness :
    (stringHeaderEncode "abc").bind stringHeaderDecode = some "abc" ∧
      (HxLocation.encode ⟨⟨"/test", by decide⟩, some { source := some "src" }⟩).bind
        HxLocation.decode =
        some ⟨⟨"/test", by decide⟩, some { source := some "src" }⟩ ∧
      (HxTrigger.encode (.list ["event1", "event2"] : HxTrigger TriggerNow)).bind
        (HxTrigger.decode TriggerNow) = some (.list ["event1", "event2"]) :=
  ⟨claim_c1_roundtrip_amended.2.1 "abc" (by decide),
    claim_c1_roundtrip_amended.2.2.2.2.2.2.1 ⟨"/test", by decide⟩
      { source := some "src" } (by decide) (by decide),
    claim_c1_roundtrip_amended.2.2.2.2.2.2.2.2 TriggerNow ["event1", "event2"]
      (by decide) (by decide) (by rfl)⟩

/-- C4: encoding an hx-location value appends exactly one value; with no
context it is the bare rendered path, and with a plain context it is a JSON
object that parses back to the path entry followed by exactly the present
context fields, where each field name occurs exactly when the field is
present. -/
theorem claim_c4_location_encode_shape :
    (∀ l : HxLocation, l.context = Option.none →
      HxLocation.encode l = some [HeaderValue.text l.path.val]) ∧
      (∀ (path : Uri) (ctx : AjaxContext), plainStr path.val = true →
        plainCtx ctx = true →
        ∃ s, HxLocation.encode ⟨path, some ctx⟩ = some [HeaderValue.text s] ∧
          jsonObjFields? (HeaderValue.text s) =
            some (("path", JsonVal.jstr path.val) :: ajaxFields ctx)) ∧
      (∀ (ctx : AjaxContext) (jv : JsonVal),
        (("source", jv) ∈ ajaxFields ctx ↔
          ∃ s, ctx.source = some s ∧ jv = JsonVal.jstr s) ∧
        (("event", jv) ∈ ajaxFields ctx ↔
          ∃ s, ctx.event = some s ∧ jv = JsonVal.jstr s) ∧
        (("handler", jv) ∈ ajaxFields ctx ↔
          ∃ s, ctx.handler = some s ∧ jv = JsonVal.jstr s) ∧
        (("target", jv) ∈ ajaxFields ctx ↔
          ∃ s, ctx.target = some s ∧ jv = JsonVal.jstr s) ∧
        (("swap", jv) ∈ ajaxFields ctx ↔
          ∃ s, ctx.swap = some s ∧ jv = JsonVal.jstr s) ∧
        (("values", jv) ∈ ajaxFields ctx ↔
          ∃ m, ctx.values = some m ∧
            jv = JsonVal.jobj (m.map (fun p => (p.1, JsonVal.jstr p.2)))) ∧
        (("headers", jv) ∈ ajaxFields ctx ↔
          ∃ m, ctx.headers = some m ∧
            jv = JsonVal.jobj (m.map (fun p => (p.1, JsonVal.jstr p.2)))) ∧
        (("select", jv) ∈ ajaxFields ctx ↔
          ∃ s, ctx.select = some s ∧ jv = JsonVal.jstr s)) := by
  refine ⟨?_, ?_, ?_⟩
  · intro l hctx
    obtain ⟨p, c⟩ := l
    simp only at hctx
    subst hctx
    show (HeaderValue.fromStr? p.val).map (fun v => [v]) = _
    rw [HeaderValue.fromStr?, if_pos (uriOk_valid p.2)]
    rfl
  · intro path ctx h1 h2
    refine ⟨String.mk (renderJson (.jobj (("path", JsonVal.jstr path.val) ::
      ajaxFields ctx))), location_encode_ctx path ctx h1 h2, ?_⟩
    have hgood := location_fields_good path ctx h1 h2
    exact jsonObjFields_render _ (rb_obj _ (fun p hp =>
      ⟨(hgood p hp).1, (hgood p hp).2.1⟩))
  · intro ctx jv
    exact ⟨mem_ajax_source ctx jv, mem_ajax_event ctx jv, mem_ajax_handler ctx jv,
      mem_ajax_target ctx jv, mem_ajax_swap ctx jv, mem_ajax_values ctx jv,
      mem_ajax_headers ctx jv, mem_ajax_select ctx jv⟩

/-- C4 witness: the two encode shapes at concrete values. -/
theorem claim_c4_location_encode_shape_witness :
    HxLocation.encode ⟨⟨"/test", by decide⟩, Option.none⟩ =
        some [HeaderValue.text "/test"] ∧
      ∃ s, HxLocation.encode ⟨⟨"/test", by decide⟩, some { event := some "click" }⟩ =
          some [HeaderValue.text s] ∧
        jsonObjFields? (HeaderValue.text s) =
          some (("path", JsonVal.jstr "/test") ::
            ajaxFields { event := some "click" }) :=
  ⟨claim_c4_location_encode_shape.1 ⟨⟨"/test", by decide⟩, Option.none⟩ rfl,
    claim_c4_location_encode_shape.2.1 ⟨"/test", by decide⟩ { event := some "click" }
      (by decide) (by decide)⟩

/-- C2: each Swap variant round trips through its wire token, and any byte
string outside the eight fixed tokens fails to parse, by exact byte match. -/
theorem claim_c2_swap_bijection :
    (∀ sw : Swap, Swap.tryFromBytes sw.toHeaderValue = some sw) ∧
      (∀ v : HeaderValue, (∀ sw : Swap, v ≠ sw.toHeaderValue) →
        Swap.tryFromBytes v = Option.none) := by
  constructor
  · intro sw
    cases sw <;> rfl
  · intro v h
    match v with
    | .bin bs => rfl
    | .text s =>
      simp only [Swap.tryFromBytes]
      split_ifs with h1 h2 h3 h4 h5 h6 h7 h8
      · exact absurd (by rw [h1]; rfl) (h .innerHtml)
      · exact absurd (by rw [h2]; rfl) (h .outerHtml)
      · exact absurd (by rw [h3]; rfl) (h .beforeBegin)
      · exact absurd (by rw [h4]; rfl) (h .afterBegin)
      · exact absurd (by rw [h5]; rfl) (h .beforeEnd)
      · exact absurd (by rw [h6]; rfl) (h .afterEnd)
      · exact absurd (by rw [h7]; rfl) (h .delete)
      · exact absurd (by rw [h8]; rfl) (h .none)
      · rfl

/-- C2 witness: a case variation of a token is rejected. -/
theorem claim_c2_swap_bijection_witness :
    Swap.tryFromBytes (Swap.toHeaderValue .delete) = some .delete ∧
      Swap.tryFromBytes (.text "INNERHTML") = Option.none :=
  ⟨claim_c2_swap_bijection.1 .delete,
    claim_c2_swap_bijection.2 (.text "INNERHTML") (fun sw => by cases sw <;> decide)⟩

/-- C7: a boolean sentinel header decodes successfully exactly from the
single literal true value, and always encodes to that value. -/
theorem claim_c7_true_header :
    (∀ vs, trueHeaderDecode vs = some () ↔ vs = [HeaderValue.text "true"]) ∧
      trueHeaderEncode = [HeaderValue.text "true"] := by
  refine ⟨fun vs => ?_, rfl⟩
  match vs with
  | [] => simp [trueHeaderDecode]
  | [HeaderValue.text s] =>
    constructor
    · intro h
      by_cases hs : s = "true"
      · rw [hs]
      · simp [trueHeaderDecode, HeaderValue.eqStr, hs] at h
    · intro h
      rw [h]
      rfl
  | [HeaderValue.bin bs] => simp [trueHeaderDecode, HeaderValue.eqStr]
  | v :: w :: t => simp [trueHeaderDecode]

/-- C7 witness: a concrete accepted and a concrete rejected decode. -/
theorem claim_c7_true_header_witness :
    trueHeaderDecode [HeaderValue.text "true"] = some () ∧
      trueHeaderDecode [HeaderValue.text "True"] ≠ some () :=
  ⟨(claim_c7_true_header.1 [HeaderValue.text "true"]).mpr rfl,
    fun h => by simpa using (claim_c7_true_header.1 [HeaderValue.text "True"]).mp h⟩

/-- C8 counterexample: a single valid UTF-8 value holding a non ASCII
character is constructible through the crate encoders, yet the string
header decoder rejects it, because the to_str conversion underlying decode
accepts only visible ASCII bytes. -/
theorem claim_c8_string_header_counterexample :
    HeaderValue.fromStr? "é" = some (HeaderValue.text "é") ∧
      stringHeaderDecode [HeaderValue.text "é"] = Option.none :=
  ⟨rfl, rfl⟩

/-- C8 amended: an opaque string header decodes a single value exactly when
all of its bytes are visible ASCII or tab, yielding the text verbatim; a
single value holding any byte outside that range, non-UTF-8 bytes included,
fails, as does any value count other than one. -/
theorem claim_c8_string_header :
    (∀ s, s.data.all visibleAsciiChar = true →
      stringHeaderDecode [HeaderValue.text s] = some s) ∧
      (∀ s, s.data.all visibleAsciiChar = false →
        stringHeaderDecode [HeaderValue.text s] = Option.none) ∧
      (∀ bs, stringHeaderDecode [HeaderValue.bin bs] = Option.none) ∧
      stringHeaderDecode [] = Option.none ∧
      (∀ v w t, stringHeaderDecode (v :: w :: t) = Option.none) := by
  refine ⟨?_, ?_, fun bs => rfl, rfl, fun v w t => rfl⟩
  · intro s h
    simp [stringHeaderDecode, HeaderValue.toStr?, h]
  · intro s h
    simp [stringHeaderDecode, HeaderValue.toStr?, h]

/-- C8 witness: a visible ASCII value decodes verbatim, a non ASCII UTF-8
value fails. -/
theorem claim_c8_string_header_witness :
    stringHeaderDecode [HeaderValue.text "abc"] = some "abc" ∧
      stringHeaderDecode [HeaderValue.text "héllo"] = Option.none :=
  ⟨claim_c8_string_header.1 "abc" (by decide),
    claim_c8_string_header.2.1 "héllo" (by decide)⟩

/-- C6: history modification decoding for any marker: the literal false is
no change, any other value parsing as a URI navigates there, any other
value failing the URI parse is an error, and no change encodes to the
literal false. -/
theorem claim_c6_modify_history :
    ∀ (M : Type),
      HxModifyHistory.decode M [HeaderValue.text "false"] = some .noChange ∧
        (∀ s u, s ≠ "false" → Uri.parse? s = some u →
          HxModifyHistory.decode M [HeaderValue.text s] = some (.uri u)) ∧
        (∀ s, s ≠ "false" → Uri.parse? s = Option.none →
          HxModifyHistory.decode M [HeaderValue.text s] = Option.none) ∧
        (∀ bs, HxModifyHistory.decode M [HeaderValue.bin bs] = Option.none) ∧
        HxModifyHistory.encode (.noChange : HxModifyHistory M) =
          some [HeaderValue.text "false"] := by
  intro M
  refine ⟨rfl, ?_, ?_, fun bs => rfl, rfl⟩
  · intro s u hs hu
    simp [HxModifyHistory.decode, HeaderValue.eqStr, hs, hu]
  · intro s hs hu
    simp [HxModifyHistory.decode, HeaderValue.eqStr, hs, hu]

/-- C6 witness: both markers at concrete inputs. -/
theorem claim_c6_modify_history_witness :
    HxModifyHistory.decode HxPushUrl [HeaderValue.text "/a"] =
        some (.uri ⟨"/a", by decide⟩) ∧
      HxModifyHistory.decode HxReplaceUrl [HeaderValue.text "no uri"] = Option.none :=
  ⟨(claim_c6_modify_history HxPushUrl).2.1 "/a" ⟨"/a", by decide⟩ (by decide) (by rfl),
    (claim_c6_modify_history HxReplaceUrl).2.2.1 "no uri" (by decide) (by rfl)⟩

/-- C9: encoding the phantom variant of the history modification or trigger
header appends zero values and returns successfully, for every marker. -/
theorem claim_c9_phantom_encodes_nothing :
    ∀ (M A : Type),
      HxModifyHistory.encode (.phantom : HxModifyHistory M) = some [] ∧
        HxTrigger.encode (.phantom : HxTrigger A) = some [] :=
  fun M A => ⟨rfl, rfl⟩

/-- C9 witness: the concrete marker instantiations of the crate. -/
theorem claim_c9_phantom_encodes_nothing_witness :
    HxModifyHistory.encode (.phantom : HxModifyHistory HxPushUrl) = some [] ∧
      HxTrigger.encode (.phantom : HxTrigger AfterSettle) = some [] :=
  ⟨(claim_c9_phantom_encodes_nothing HxPushUrl AfterSettle).1,
    (claim_c9_phantom_encodes_nothing HxPushUrl AfterSettle).2⟩

/-- C10 counterexample: a single valid UTF-8 value that is not a JSON
object fails to decode when it holds a non ASCII character: the comma
splitting fallback first converts through to_str, which accepts only
visible ASCII bytes. -/
theorem claim_c10_trigger_counterexample :
    HeaderValue.fromStr? "Ω" = some (HeaderValue.text "Ω") ∧
      HxTrigger.decode TriggerNow [HeaderValue.text "Ω"] = Option.none :=
  ⟨rfl, rfl⟩

/-- C10 amended: on a single value the trigger decoder succeeds exactly
when the value is a JSON object or its bytes are all visible ASCII or tab;
a visible ASCII value that is not a JSON object becomes the comma split
trimmed list, while a JSON failure on a value outside visible ASCII,
non-UTF-8 bytes included, is an error; the empty string becomes the one
element list holding the empty string. -/
theorem claim_c10_trigger_single_value_totality :
    ∀ (After : Type),
      (∀ v, (HxTrigger.decode After [v]).isSome ↔
        ((∃ fields, jsonObjFields? v = some fields) ∨
          (∃ s, v = HeaderValue.text s ∧ s.data.all visibleAsciiChar = true))) ∧
        (∀ s, jsonObjFields? (HeaderValue.text s) = Option.none →
          s.data.all visibleAsciiChar = true →
          HxTrigger.decode After [HeaderValue.text s] = some (.list (strSplitTrim s))) ∧
        (∀ s, jsonObjFields? (HeaderValue.text s) = Option.none →
          s.data.all visibleAsciiChar = false →
          HxTrigger.decode After [HeaderValue.text s] = Option.none) ∧
        (∀ bs, HxTrigger.decode After [HeaderValue.bin bs] = Option.none) ∧
        HxTrigger.decode After [HeaderValue.text ""] = some (.list [""]) ∧
        HxTrigger.decode After [HeaderValue.text "[1, 2]"] =
          some (.list ["[1", "2]"]) ∧
        HxTrigger.decode After [HeaderValue.text "3.5"] = some (.list ["3.5"]) := by
  intro After
  refine ⟨?_, ?_, ?_, fun bs => rfl, rfl, rfl, rfl⟩
  · intro v
    match v with
    | HeaderValue.text s =>
      cases hj : jsonObjFields? (HeaderValue.text s) with
      | some fields =>
        rw [show HxTrigger.decode After [HeaderValue.text s] =
            some (.withDetails fields) from by simp [HxTrigger.decode, hj]]
        simp only [Option.isSome_some, true_iff]
        exact Or.inl ⟨fields, rfl⟩
      | none =>
        cases hvis : s.data.all visibleAsciiChar with
        | true =>
          rw [show HxTrigger.decode After [HeaderValue.text s] =
              some (.list (strSplitTrim s)) from by
            simp [HxTrigger.decode, hj, HeaderValue.toStr?, hvis]]
          simp only [Option.isSome_some, true_iff]
          exact Or.inr ⟨s, rfl, hvis⟩
        | false =>
          rw [show HxTrigger.decode After [HeaderValue.text s] = Option.none from by
            simp [HxTrigger.decode, hj, HeaderValue.toStr?, hvis]]
          simp only [Option.isSome_none, Bool.false_eq_true, false_iff]
          rintro (⟨fields, hf⟩ | ⟨s2, hs2, hv2⟩)
          · exact Option.noConfusion hf
          · injection hs2 with hss
            rw [← hss] at hv2
            rw [hvis] at hv2
            exact Bool.noConfusion hv2
    | HeaderValue.bin bs =>
      rw [show HxTrigger.decode After [HeaderValue.bin bs] = Option.none from rfl]
      simp only [Option.isSome_none, Bool.false_eq_true, false_iff]
      rintro (⟨fields, hf⟩ | ⟨s2, hs2, hv2⟩)
      · exact Option.noConfusion hf
      · exact HeaderValue.noConfusion hs2
  · intro s hj hvis
    simp [HxTrigger.decode, hj, HeaderValue.toStr?, hvis]
  · intro s hj hvis
    simp [HxTrigger.decode, hj, HeaderValue.toStr?, hvis]

/-- C10 witness: a visible ASCII scalar decodes to a list, a non ASCII
UTF-8 value and a non-UTF-8 byte string fail. -/
theorem claim_c10_trigger_single_value_totality_witness :
    HxTrigger.decode TriggerNow [HeaderValue.text "3.5"] = some (.list ["3.5"]) ∧
      HxTrigger.decode TriggerNow [HeaderValue.text "αβ"] = Option.none ∧
      HxTrigger.decode TriggerNow [HeaderValue.bin [0xFF]] = Option.none :=
  ⟨(claim_c10_trigger_single_value_totality TriggerNow).2.1 "3.5" (by rfl) (by decide),
    (claim_c10_trigger_single_value_totality TriggerNow).2.2.1 "αβ" (by rfl) (by decide),
    (claim_c10_trigger_single_value_totality TriggerNow).2.2.2.1 [0xFF]⟩

/-- C3 counterexample: a comma separated list holding a non ASCII event
name is constructible through the crate encoders and fails the JSON
attempt, yet decode errors instead of falling back to the list variant,
because the fallback first converts through to_str, which accepts only
visible ASCII bytes. -/
theorem claim_c3_trigger_fallback_counterexample :
    HeaderValue.fromStr? "café, bar" = some (HeaderValue.text "café, bar") ∧
      jsonObjFields? (HeaderValue.text "café, bar") = Option.none ∧
      HxTrigger.decode TriggerNow [HeaderValue.text "café, bar"] = Option.none :=
  ⟨rfl, rfl, rfl⟩

/-- C3 amended: the trigger decoder sniffs content for every marker: a
JSON object value yields the detail map, and a JSON failure falls back to
the comma split trimmed list provided the value converts to a str, that
is, all of its bytes are visible ASCII or tab, and is an error otherwise;
the two concrete examples of the claim decode to the two entry map and to
the two event list. -/
theorem claim_c3_trigger_content_sniffing :
    ∀ (After : Type),
      HxTrigger.decode After
          [HeaderValue.text "\x7b\"event1\":\"A message\",\"event2\":\"Another message\"\x7d"] =
        some (.withDetails
          [("event1", .jstr "A message"), ("event2", .jstr "Another message")]) ∧
      HxTrigger.decode After [HeaderValue.text "event1, event2"] =
        some (.list ["event1", "event2"]) ∧
      (∀ v fields, jsonObjFields? v = some fields →
        HxTrigger.decode After [v] = some (.withDetails fields)) ∧
      (∀ s, jsonObjFields? (HeaderValue.text s) = Option.none →
        s.data.all visibleAsciiChar = true →
        HxTrigger.decode After [HeaderValue.text s] = some (.list (strSplitTrim s))) ∧
      (∀ s, jsonObjFields? (HeaderValue.text s) = Option.none →
        s.data.all visibleAsciiChar = false →
        HxTrigger.decode After [HeaderValue.text s] = Option.none) := by
  intro After
  refine ⟨rfl, rfl, ?_, ?_, ?_⟩
  · intro v fields h
    simp [HxTrigger.decode, h]
  · intro s h hvis
    simp [HxTrigger.decode, h, HeaderValue.toStr?, hvis]
  · intro s h hvis
    simp [HxTrigger.decode, h, HeaderValue.toStr?, hvis]

/-- C3 witness: the general clauses applied at concrete inputs. -/
theorem claim_c3_trigger_content_sniffing_witness :
    HxTrigger.decode TriggerNow [HeaderValue.text "\x7b\x7d"] =
        some (.withDetails []) ∧
      HxTrigger.decode TriggerNow [HeaderValue.text "a, b"] =
        some (.list (strSplitTrim "a, b")) :=
  ⟨(claim_c3_trigger_content_sniffing TriggerNow).2.2.1 (HeaderValue.text "\x7b\x7d") []
      (by rfl),
    (claim_c3_trigger_content_sniffing TriggerNow).2.2.2.1 "a, b" (by rfl) (by decide)⟩

/-- C5: the location decoder needs exactly one value, rejects a bare URI
value, and succeeds only when the whole value is UTF-8 text forming a JSON
object whose path entry is a string parsing as a URI; the flattened context
record is then always carried along. -/
theorem claim_c5_location_decode_strict :
    HxLocation.decode [] = Option.none ∧
      (∀ v w t, HxLocation.decode (v :: w :: t) = Option.none) ∧
      HxLocation.decode [HeaderValue.text "/test"] = Option.none ∧
      (∀ v l, HxLocation.decode [v] = some l →
        ∃ s fields, v = HeaderValue.text s ∧
          parseJsonTop s = some (.jobj fields) ∧
          (∃ ps, lookupField fields "path" = [JsonVal.jstr ps] ∧
            Uri.parse? ps = some l.path) ∧
          l.context.isSome) := by
  refine ⟨rfl, fun v w t => rfl, rfl, ?_⟩
  intro v l h
  have hvj : ∃ s, v = HeaderValue.text s := by
    match v with
    | .text s => exact ⟨s, rfl⟩
    | .bin bs => simp [HxLocation.decode, jsonObjFields?] at h
  obtain ⟨s, rfl⟩ := hvj
  cases hj : jsonObjFields? (HeaderValue.text s) with
  | none => simp [HxLocation.decode, hj] at h
  | some fields =>
    simp only [HxLocation.decode, hj] at h
    refine ⟨s, fields, rfl, ?_, ?_⟩
    · revert hj
      simp only [jsonObjFields?]
      cases hp : parseJsonTop s with
      | none => intro hj; exact Option.noConfusion hj
      | some j =>
        cases j with
        | jobj f => intro hj; simp only [Option.some.injEq] at hj; rw [← hj]
        | jnull => intro hj; exact Option.noConfusion hj
        | jbool b => intro hj; exact Option.noConfusion hj
        | jnum lx => intro hj; exact Option.noConfusion hj
        | jstr t => intro hj; exact Option.noConfusion hj
        | jarr xs => intro hj; exact Option.noConfusion hj
    · split at h
      · rename_i ps hps
        simp only [Option.bind_eq_bind', Option.some_bind, Option.bind_eq_some,
          Option.some.injEq] at h
        obtain ⟨path, hpath, ctx, hctx, hl⟩ := h
        exact ⟨⟨ps, hps, by rw [← hl, hpath]⟩, by rw [← hl]; rfl⟩
      · simp only [Option.bind_eq_bind', Option.none_bind] at h
        exact Option.noConfusion h

/-- C5 witness: a successful decode exhibits the JSON object shape. -/
theorem claim_c5_location_decode_strict_witness :
    ∃ s fields, HeaderValue.text "\x7b\"path\":\"/test\"\x7d" = HeaderValue.text s ∧
      parseJsonTop s = some (.jobj fields) ∧
      (∃ ps, lookupField fields "path" = [JsonVal.jstr ps] ∧
        Uri.parse? ps =
          some (HxLocation.mk ⟨"/test", by decide⟩ (some (AjaxContext.mk Option.none
            Option.none Option.none Option.none Option.none Option.none Option.none
            Option.none))).path) ∧
      (HxLocation.mk ⟨"/test", by decide⟩ (some (AjaxContext.mk Option.none Option.none
        Option.none Option.none Option.none Option.none Option.none
        Option.none))).context.isSome :=
  claim_c5_location_decode_strict.2.2.2 (HeaderValue.text "\x7b\"path\":\"/test\"\x7d")
    (HxLocation.mk ⟨"/test", by decide⟩ (some (AjaxContext.mk Option.none Option.none
      Option.none Option.none Option.none Option.none Option.none Option.none)))
    (by rfl)
